import Mathlib

/-!
Swayfire decorations: border composer, active-node propagation, corner masks, tab entries,
tab-bar visibility and geometry, window-decoration lifecycle, plugin finalisation.

A shallow embedding of `src/deco/subsurf.cpp`, of the handlers declared inline in
`src/deco/deco.hpp` and of `src/core/plugin.hpp`.

Conventions of the embedding.

* C++ `int` is `Int`; signed overflow is undefined behaviour in the source and is left out.
* `float`/`double` values are real numbers: `std::sqrt` is `Real.sqrt`, `std::atan2 (y, x)` is the
  argument of the point `(x, y)` in `(-π, π]` (with `atan2 (0, 0) = 0`, as for IEEE arguments
  without a negative zero, which integer operands never are), and `M_PI` is `Real.pi`.
  Rounding to single precision is idealised away.
* `wf::region_t` is the list of rectangles it was united from; a rectangle contains the points
  with `x ≤ px < x + width` and `y ≤ py < y + height`.
-/

namespace wf

/-- The wayfire `wf::point_t`: integer coordinates. -/
structure point_t where
  x : Int
  y : Int
  deriving DecidableEq, Repr

/-- The wayfire `wf::geometry_t`: an integer rectangle. -/
structure geometry_t where
  x : Int
  y : Int
  width : Int
  height : Int
  deriving DecidableEq, Repr

/-- The operator `a - b` of `wf::point_t`. -/
def point_t.sub (a b : point_t) : point_t := ⟨a.x - b.x, a.y - b.y⟩

/-- The operator `a + b` of `wf::point_t`. -/
def point_t.add (a b : point_t) : point_t := ⟨a.x + b.x, a.y + b.y⟩

/-- The operator `geo + origin`: the rectangle translated by a point. -/
def geometry_t.translate (g : geometry_t) (o : point_t) : geometry_t :=
  ⟨g.x + o.x, g.y + o.y, g.width, g.height⟩

/-- A rectangle holds the points of its half-open box. -/
def geometry_t.contains_point (g : geometry_t) (pt : point_t) : Bool :=
  decide (g.x ≤ pt.x) && decide (pt.x < g.x + g.width) &&
    decide (g.y ≤ pt.y) && decide (pt.y < g.y + g.height)

/-- The wayfire `wf::region_t`, kept as the rectangles united into it. -/
abbrev region_t := List geometry_t

/-- The method `wf::region_t::contains_point`. -/
def region_t.contains_point (r : region_t) (pt : point_t) : Bool :=
  r.any fun g => g.contains_point pt

end wf

/-! ## RectSubSurf -/

namespace RectSubSurf

/-- The type `RectSubSurf::Spec` is a plain `wf::geometry_t`. -/
abbrev Spec := wf.geometry_t

/-- Embeds `RectSubSurf::calculate_region`: the region made of the rectangle itself. -/
def calculate_region (geo : wf.geometry_t) : wf.region_t := [geo]

/-- Embeds `RectSubSurf::contains_point`: `wf::region_t{geo}.contains_point(pt)`. -/
def contains_point (geo : wf.geometry_t) (pt : wf.point_t) : Bool :=
  wf.region_t.contains_point [geo] pt

end RectSubSurf

/-! ## CurveSubSurf -/

/-- Embeds `std::atan2 (y, x)` on real arguments. -/
noncomputable def atan2 (y x : ℝ) : ℝ := Complex.arg ⟨x, y⟩

namespace CurveSubSurf

/-- Embeds `CurveSubSurf::Spec`, with the fields in the order of the aggregate initialisers of
`BorderSubSurf::subspecs`. -/
structure Spec where
  origin : wf.point_t
  theta_a : ℝ
  theta_b : ℝ
  radius : Int
  stroke_width : Int

/-- Embeds `CurveSubSurf::calculate_region`: the square of side `2 * radius` around the origin. -/
def calculate_region (spec : Spec) : wf.region_t :=
  [⟨spec.origin.x - spec.radius, spec.origin.y - spec.radius, 2 * spec.radius, 2 * spec.radius⟩]

/-- The local `dist` of `CurveSubSurf::contains_point`. -/
noncomputable def dist (spec : Spec) (pt : wf.point_t) : ℝ :=
  let diff := pt.sub spec.origin
  Real.sqrt ((diff.x * diff.x + diff.y * diff.y : Int) : ℝ)

/-- The local `angle` of `CurveSubSurf::contains_point`. -/
noncomputable def angle (spec : Spec) (pt : wf.point_t) : ℝ :=
  let diff := pt.sub spec.origin
  atan2 (diff.y : ℝ) ((-diff.x : Int) : ℝ) + Real.pi

/-- Embeds `CurveSubSurf::contains_point`. -/
noncomputable def contains_point (spec : Spec) (pt : wf.point_t) : Bool :=
  let dist := dist spec pt
  let inner_radius : Int := spec.radius - spec.stroke_width
  if dist > (spec.radius : ℝ) ∨ dist < (inner_radius : ℝ) then false
  else
    let angle := angle spec pt
    if angle < spec.theta_a ∨ angle > spec.theta_b then false
    else true

end CurveSubSurf

/-! ## BorderSubSurf -/

namespace BorderSubSurf

/-- Embeds `BorderSubSurf::Spec`: the fields that `subsurf.cpp` reads. -/
structure Spec where
  geo : wf.geometry_t
  border_width : Int
  border_radius : Int
  deriving DecidableEq, Repr

/-- Embeds `BorderSubSurf::SubSpecs`. -/
structure SubSpecs where
  left : RectSubSurf.Spec
  right : RectSubSurf.Spec
  top : RectSubSurf.Spec
  bottom : RectSubSurf.Spec
  top_left : CurveSubSurf.Spec
  top_right : CurveSubSurf.Spec
  bottom_left : CurveSubSurf.Spec
  bottom_right : CurveSubSurf.Spec

/-- Embeds `BorderSubSurf::subspecs`. -/
noncomputable def subspecs (spec : Spec) : SubSpecs where
  left := ⟨0, spec.border_radius, spec.border_width, spec.geo.height - 2 * spec.border_radius⟩
  right := ⟨spec.geo.width - spec.border_width, spec.border_radius, spec.border_width,
    spec.geo.height - 2 * spec.border_radius⟩
  top := ⟨spec.border_radius, 0, spec.geo.width - 2 * spec.border_radius, spec.border_width⟩
  bottom := ⟨spec.border_radius, spec.geo.height - spec.border_width,
    spec.geo.width - 2 * spec.border_radius, spec.border_width⟩
  top_left := ⟨⟨spec.border_radius, spec.border_radius⟩, Real.pi / 2, Real.pi,
    spec.border_radius, spec.border_width⟩
  top_right := ⟨⟨spec.geo.width - spec.border_radius, spec.border_radius⟩, 0, Real.pi / 2,
    spec.border_radius, spec.border_width⟩
  bottom_left := ⟨⟨spec.border_radius, spec.geo.height - spec.border_radius⟩, Real.pi,
    Real.pi + Real.pi / 2, spec.border_radius, spec.border_width⟩
  bottom_right := ⟨⟨spec.geo.width - spec.border_radius, spec.geo.height - spec.border_radius⟩,
    Real.pi + Real.pi / 2, 2 * Real.pi, spec.border_radius, spec.border_width⟩

/-- Embeds `BorderSubSurf::calculate_region`: the union, in the order of the source. -/
noncomputable def calculate_region (spec : Spec) : wf.region_t :=
  let specs := subspecs spec
  RectSubSurf.calculate_region specs.left ++ RectSubSurf.calculate_region specs.right ++
    RectSubSurf.calculate_region specs.top ++ RectSubSurf.calculate_region specs.bottom ++
    CurveSubSurf.calculate_region specs.top_left ++ CurveSubSurf.calculate_region specs.top_right ++
    CurveSubSurf.calculate_region specs.bottom_left ++
    CurveSubSurf.calculate_region specs.bottom_right

/-- Embeds `BorderSubSurf::contains_point`. -/
noncomputable def contains_point (spec : Spec) (pt : wf.point_t) : Bool :=
  let specs := subspecs spec
  RectSubSurf.contains_point specs.left pt ||
  RectSubSurf.contains_point specs.right pt ||
  RectSubSurf.contains_point specs.top pt ||
  RectSubSurf.contains_point specs.bottom pt ||
  CurveSubSurf.contains_point specs.top_left pt ||
  CurveSubSurf.contains_point specs.top_right pt ||
  CurveSubSurf.contains_point specs.bottom_left pt ||
  CurveSubSurf.contains_point specs.bottom_right pt

end BorderSubSurf

/-! ## Rendering, as the sequence of draw calls issued -/

/-- One primitive handed to the rendering backend. `C` is `wf::color_t`, `M` is `glm::mat4`. -/
inductive DrawCall (C M : Type) where
  /-- The call `OpenGL::render_rectangle (geo, color, matrix)`. -/
  | rectangle (geo : wf.geometry_t) (color : C) (matrix : M)
  /-- The triangle fan of `CurveSubSurf::render`, with the uniforms of the curve program. -/
  | sector (origin : wf.point_t) (theta_a theta_b : ℝ) (radius stroke_width : Int)
      (color : C) (matrix : M)

/-- Embeds `RectSubSurf::render`. -/
def RectSubSurf.render {C M : Type} (geo : wf.geometry_t) (color : C) (origin : wf.point_t)
    (matrix : M) : List (DrawCall C M) :=
  [DrawCall.rectangle (geo.translate origin) color matrix]

/-- Embeds `CurveSubSurf::render`: one square drawn with the curve program; the angles are shifted
by `-M_PI` for the shader. -/
noncomputable def CurveSubSurf.render {C M : Type} (spec : CurveSubSurf.Spec) (color : C)
    (origin : wf.point_t) (matrix : M) : List (DrawCall C M) :=
  let origin := origin.add spec.origin
  [DrawCall.sector origin (spec.theta_a - Real.pi) (spec.theta_b - Real.pi) spec.radius
    spec.stroke_width color matrix]

/-- Embeds `BorderSubSurf::Colors`. -/
structure BorderSubSurf.Colors (C : Type) where
  all : C
  right : C
  bottom : C

/-- Embeds `BorderSubSurf::render`. -/
noncomputable def BorderSubSurf.render {C M : Type} (spec : BorderSubSurf.Spec)
    (colors : BorderSubSurf.Colors C) (origin : wf.point_t) (matrix : M) :
    List (DrawCall C M) :=
  let specs := BorderSubSurf.subspecs spec
  RectSubSurf.render specs.left colors.all origin matrix ++
  RectSubSurf.render specs.right colors.right origin matrix ++
  RectSubSurf.render specs.top colors.all origin matrix ++
  RectSubSurf.render specs.bottom colors.bottom origin matrix ++
  CurveSubSurf.render specs.top_left colors.all origin matrix ++
  CurveSubSurf.render specs.top_right colors.all origin matrix ++
  CurveSubSurf.render specs.bottom_left colors.all origin matrix ++
  CurveSubSurf.render specs.bottom_right colors.all origin matrix

/-! ## Corner masks -/

/-- Embeds `using Corners = std::uint8_t`. -/
abbrev Corners := Nat

namespace Corner

/-- Embeds `Corner::NONE`. -/
def NONE : Corners := 0
/-- Embeds `Corner::TOP_LEFT`. -/
def TOP_LEFT : Corners := 1 <<< 0
/-- Embeds `Corner::TOP_RIGHT`. -/
def TOP_RIGHT : Corners := 1 <<< 1
/-- Embeds `Corner::BOTTOM_LEFT`. -/
def BOTTOM_LEFT : Corners := 1 <<< 2
/-- Embeds `Corner::BOTTOM_RIGHT`. -/
def BOTTOM_RIGHT : Corners := 1 <<< 3
/-- Embeds `Corner::TOP`. -/
def TOP : Corners := TOP_LEFT ||| TOP_RIGHT
/-- Embeds `Corner::BOTTOM`. -/
def BOTTOM : Corners := BOTTOM_LEFT ||| BOTTOM_RIGHT
/-- Embeds `Corner::LEFT`. -/
def LEFT : Corners := TOP_LEFT ||| BOTTOM_LEFT
/-- Embeds `Corner::RIGHT`. -/
def RIGHT : Corners := TOP_RIGHT ||| BOTTOM_RIGHT
/-- Embeds `Corner::ALL`. -/
def ALL : Corners := TOP_LEFT ||| TOP_RIGHT ||| BOTTOM_LEFT ||| BOTTOM_RIGHT

end Corner

/-! ## The border composer in the words of the specification

Section 4.1 of the specification gives the composer a fourth input, the mask of outer corners,
and has it produce a corner sector only for a flagged corner. The definitions of this namespace
follow that wording; they are compared with `BorderSubSurf` below. -/

namespace BorderComposer

/-- Whether the bit of `corner` is set in the mask. -/
def flagged (outer_corners : Corners) (corner : Corners) : Bool :=
  decide (outer_corners &&& corner ≠ 0)

/-- Hit test of the composer of the specification: the four edges, and the sectors of the
flagged corners only. -/
noncomputable def contains_point (outer_corners : Corners) (spec : BorderSubSurf.Spec)
    (pt : wf.point_t) : Bool :=
  let specs := BorderSubSurf.subspecs spec
  RectSubSurf.contains_point specs.left pt ||
  RectSubSurf.contains_point specs.right pt ||
  RectSubSurf.contains_point specs.top pt ||
  RectSubSurf.contains_point specs.bottom pt ||
  (flagged outer_corners Corner.TOP_LEFT && CurveSubSurf.contains_point specs.top_left pt) ||
  (flagged outer_corners Corner.TOP_RIGHT && CurveSubSurf.contains_point specs.top_right pt) ||
  (flagged outer_corners Corner.BOTTOM_LEFT &&
    CurveSubSurf.contains_point specs.bottom_left pt) ||
  (flagged outer_corners Corner.BOTTOM_RIGHT &&
    CurveSubSurf.contains_point specs.bottom_right pt)

/-- Region of the composer of the specification. -/
noncomputable def calculate_region (outer_corners : Corners) (spec : BorderSubSurf.Spec) :
    wf.region_t :=
  let specs := BorderSubSurf.subspecs spec
  RectSubSurf.calculate_region specs.left ++ RectSubSurf.calculate_region specs.right ++
    RectSubSurf.calculate_region specs.top ++ RectSubSurf.calculate_region specs.bottom ++
    (if flagged outer_corners Corner.TOP_LEFT then
      CurveSubSurf.calculate_region specs.top_left else []) ++
    (if flagged outer_corners Corner.TOP_RIGHT then
      CurveSubSurf.calculate_region specs.top_right else []) ++
    (if flagged outer_corners Corner.BOTTOM_LEFT then
      CurveSubSurf.calculate_region specs.bottom_left else []) ++
    (if flagged outer_corners Corner.BOTTOM_RIGHT then
      CurveSubSurf.calculate_region specs.bottom_right else [])

/-- Draw calls of the composer of the specification. -/
noncomputable def render {C M : Type} (outer_corners : Corners) (spec : BorderSubSurf.Spec)
    (colors : BorderSubSurf.Colors C) (origin : wf.point_t) (matrix : M) :
    List (DrawCall C M) :=
  let specs := BorderSubSurf.subspecs spec
  RectSubSurf.render specs.left colors.all origin matrix ++
  RectSubSurf.render specs.right colors.right origin matrix ++
  RectSubSurf.render specs.top colors.all origin matrix ++
  RectSubSurf.render specs.bottom colors.bottom origin matrix ++
  (if flagged outer_corners Corner.TOP_LEFT then
    CurveSubSurf.render specs.top_left colors.all origin matrix else []) ++
  (if flagged outer_corners Corner.TOP_RIGHT then
    CurveSubSurf.render specs.top_right colors.all origin matrix else []) ++
  (if flagged outer_corners Corner.BOTTOM_LEFT then
    CurveSubSurf.render specs.bottom_left colors.all origin matrix else []) ++
  (if flagged outer_corners Corner.BOTTOM_RIGHT then
    CurveSubSurf.render specs.bottom_right colors.all origin matrix else [])

end BorderComposer

/-! ## Active-node propagation (`SwayfireDeco::on_active_node_changed`)

A node is named by its address in the tiling tree: its index among its siblings followed by the
address of its parent; the root of a workspace is `[]`, and its parent is the workspace, for
which `as_split_node ()` is null. -/

/-- A node of the tiling tree, by address. -/
abbrev Node := List Nat

/-- Embeds `n->parent->as_split_node ()`: the parent container, or null above the root. -/
def Node.parent : Node → Option Node
  | [] => none
  | _ :: p => some p

/-- The containers strictly above a node, nearest first. -/
def Node.ancestors : Node → List Node
  | [] => []
  | _ :: p => p :: Node.ancestors p

/-- Embeds `SplitDecoration::node_state`. -/
structure NodeState where
  is_active : Bool := false
  is_child_active : Bool := false
  deriving DecidableEq, Repr

/-- What the handler can observe of the tree: which nodes are split nodes, and the decoration
state stored under `SplitDecorationData` on a node, if any. -/
structure DecoTree where
  is_split : Node → Bool
  deco : Node → Option NodeState

/-- A notification delivered to the decoration of a container. -/
inductive Notification where
  | on_set_active (node : Node) (active : Bool)
  | on_set_child_active (node : Node) (active : Bool)
  deriving DecidableEq, Repr

/-- Modelled from the spec: `SplitDecoration::on_set_active` and
`SplitDecoration::on_set_child_active` are only declared in `deco.hpp`; they record the value in
`node_state.is_active`, respectively `node_state.is_child_active` (has_active_descendant). -/
def DecoTree.deliver (t : DecoTree) : Notification → DecoTree
  | .on_set_active n active =>
    { t with
      deco := Function.update t.deco n ((t.deco n).map fun s => { s with is_active := active }) }
  | .on_set_child_active n active =>
    { t with
      deco :=
        Function.update t.deco n ((t.deco n).map fun s => { s with is_child_active := active }) }

/-- The tree after a sequence of notifications, delivered in order. -/
def DecoTree.run (t : DecoTree) (ns : List Notification) : DecoTree :=
  ns.foldl DecoTree.deliver t

/-- The loop `while (parent)` of `notify_tree`, entered with `parent` the parent of `n`: every
decorated container above `n` is sent `on_set_child_active (active)`. -/
def notify_parents (t : DecoTree) (active : Bool) : Node → List Notification
  | [] => []
  | _ :: p =>
    (if (t.deco p).isSome then [Notification.on_set_child_active p active] else []) ++
      notify_parents t active p

/-- The lambda `notify_tree` of `on_active_node_changed`. -/
def notify_tree (t : DecoTree) (n : Node) (active : Bool) : List Notification :=
  (if t.is_split n then
    (if (t.deco n).isSome then [Notification.on_set_active n active] else [])
   else []) ++
  notify_parents t active n

/-- The unmark phase of `on_active_node_changed`: the first `if`. -/
def unmark_phase (t : DecoTree) (old_node new_node : Option Node) : List Notification :=
  match old_node with
  | some o => if new_node ≠ old_node then notify_tree t o false else []
  | none => []

/-- The mark phase of `on_active_node_changed`: the second `if`. -/
def mark_phase (t : DecoTree) (new_node : Option Node) : List Notification :=
  match new_node with
  | some n => notify_tree t n true
  | none => []

/-- Embeds `SwayfireDeco::on_active_node_changed`: the notifications it delivers, in order. -/
def on_active_node_changed (t : DecoTree) (old_node new_node : Option Node) :
    List Notification :=
  unmark_phase t old_node new_node ++ mark_phase t new_node

/-! ## Corner propagation (`set_outer_corners`) -/

/-- A subtree for corner propagation: the `outer_corners` of the decoration attached to the
root, if any, and the children, in order (none for a view). -/
inductive CornerTree where
  | node (deco : Option Corners) (children : List CornerTree)

/-- The decoration mask at the root of a subtree. -/
def CornerTree.deco : CornerTree → Option Corners
  | .node d _ => d

/-- The children of the root of a subtree. -/
def CornerTree.children : CornerTree → List CornerTree
  | .node _ cs => cs

/-- Modelled from the spec: `set_outer_corners` is only declared in `deco.hpp`. The mask that
child `i` of `count` children receives (section 4.5): a single child the full mask, otherwise
the first child the left-side bits, the last child the right-side bits, a middle child `NONE`. -/
def child_corners (count i : Nat) (corners : Corners) : Corners :=
  if count = 1 then corners
  else if i = 0 then corners &&& Corner.LEFT
  else if i + 1 = count then corners &&& Corner.RIGHT
  else Corner.NONE

mutual
/-- Modelled from the spec: `set_outer_corners (tree, corners)` is only declared in `deco.hpp`.
It assigns the mask to the decoration of the root, if any, and recurses into the children with
`child_corners`. -/
def set_outer_corners : CornerTree → Corners → CornerTree
  | .node d cs, corners =>
    .node (d.map fun _ => corners) (set_outer_corners_children cs cs.length 0 corners)
/-- The recursion of `set_outer_corners` over the children from index `i` on. -/
def set_outer_corners_children : List CornerTree → Nat → Nat → Corners → List CornerTree
  | [], _, _, _ => []
  | c :: rest, count, i, corners =>
    set_outer_corners c (child_corners count i corners) ::
      set_outer_corners_children rest count (i + 1) corners
end

/-! ## Tab entries of a container decoration (`SplitDecoration::tab_surfaces`) -/

/-- A node as the decoration holds it: the identity of an observer pointer. -/
abbrev NodeRef := Nat

/-- The tab entry type `TitleBarSubSurf` (declared in `subsurf.hpp`, which is not at hand): what
matters of it is the cached label, named by the child whose title was rendered into it; a
default-constructed entry has none. -/
structure TitleBarSubSurf where
  label : Option NodeRef := none
  deriving DecidableEq, Repr

/-- A container and its decoration: the children of the split node, as `child_at` and
`get_children_count` give them, and `SplitDecoration::tab_surfaces`. -/
structure SplitDecoration where
  children : List NodeRef
  tab_surfaces : List TitleBarSubSurf
  deriving DecidableEq, Repr

/-- The loop of the constructor: `count` times `tab_surfaces.emplace_back ()`. -/
def emplace_back_loop : Nat → List TitleBarSubSurf → List TitleBarSubSurf
  | 0, tabs => tabs
  | count + 1, tabs => emplace_back_loop count (tabs ++ [{}])

/-- Embeds `SplitDecoration::SplitDecoration`, as far as the tab entries go. -/
def SplitDecoration.new (children : List NodeRef) : SplitDecoration :=
  { children := children, tab_surfaces := emplace_back_loop children.length [] }

/-- Modelled from the spec: `SplitDecoration::cache_textures` is only declared in `deco.hpp`.
It renders the label of every tab entry anew from the child in the same position; the number
of entries is left as it is. -/
def SplitDecoration.cache_textures (d : SplitDecoration) : SplitDecoration :=
  { d with
    tab_surfaces := (List.range d.tab_surfaces.length).map fun i => { label := d.children[i]? } }

/-- Embeds the handler `on_child_swapped`: the title subscription moves from the old to the new
node and the corner masks are refreshed, both outside this state; the tab entries are touched
by `cache_textures ()` only. -/
def SplitDecoration.on_child_swapped (d : SplitDecoration) (_old_node _new_node : NodeRef) :
    SplitDecoration :=
  d.cache_textures

/-- Embeds the handler `on_children_swapped`: `cache_textures ()`, then the corner masks. -/
def SplitDecoration.on_children_swapped (d : SplitDecoration) : SplitDecoration :=
  d.cache_textures

/-- Modelled from the spec: `SplitDecoration::on_child_inserted_impl` is only declared in
`deco.hpp`. Section 4.4: on child-inserted (at index, node), insert a tab entry at that index,
then recompute the cached textures. -/
def SplitDecoration.on_child_inserted_impl (d : SplitDecoration) (index : Nat)
    (_node : NodeRef) : SplitDecoration :=
  SplitDecoration.cache_textures
    { d with tab_surfaces := d.tab_surfaces.insertIdx index {} }

/-- Modelled from the spec: `SplitDecoration::on_child_removed_impl` is only declared in
`deco.hpp`. Section 4.4: on child-removed (node), remove its tab entry at the matching position,
which is the position `index` the node had among the children. -/
def SplitDecoration.on_child_removed_impl (d : SplitDecoration) (index : Nat)
    (_node : NodeRef) : SplitDecoration :=
  { d with tab_surfaces := d.tab_surfaces.eraseIdx index }

/-- A structural change of the container by the tiling tree, as signalled to the decoration. -/
inductive ChildSignal where
  /-- The signal child-inserted: `node` is the new child at position `index`. -/
  | child_inserted (index : Nat) (node : NodeRef)
  /-- The signal child-removed: the child at position `index` is gone. -/
  | child_removed (index : Nat)
  /-- The signal child-swapped: the child at position `index` is replaced by `new_node`. -/
  | child_swapped (index : Nat) (new_node : NodeRef)
  /-- The signal children-swapped: the children at positions `i` and `j` change places. -/
  | children_swapped (i j : Nat)
  deriving DecidableEq, Repr

/-- The tree applies the change to the children and then emits the signal, which the
decoration handles; `none` when the tree has no such position. -/
def SplitDecoration.handle (d : SplitDecoration) : ChildSignal → Option SplitDecoration
  | .child_inserted index node =>
    if index ≤ d.children.length then
      some (SplitDecoration.on_child_inserted_impl
        { d with children := d.children.insertIdx index node } index node)
    else none
  | .child_removed index =>
    match d.children[index]? with
    | some node =>
      some (SplitDecoration.on_child_removed_impl
        { d with children := d.children.eraseIdx index } index node)
    | none => none
  | .child_swapped index new_node =>
    match d.children[index]? with
    | some old_node =>
      some (SplitDecoration.on_child_swapped
        { d with children := d.children.set index new_node } old_node new_node)
    | none => none
  | .children_swapped i j =>
    match d.children[i]?, d.children[j]? with
    | some a, some b =>
      some (SplitDecoration.on_children_swapped
        { d with children := (d.children.set i b).set j a })
    | _, _ => none

/-- A sequence of signals, handled one after the other. -/
def SplitDecoration.handle_all (d : SplitDecoration) : List ChildSignal → Option SplitDecoration
  | [] => some d
  | s :: rest => (d.handle s).bind fun d1 => SplitDecoration.handle_all d1 rest

/-- Tab entry `i` corresponds to child `i`: its label, once rendered, is that of child `i`. -/
def SplitDecoration.entries_match (d : SplitDecoration) : Prop :=
  ∀ (i : Nat) (e : TitleBarSubSurf), d.tab_surfaces[i]? = some e →
    e.label = none ∨ e.label = d.children[i]?

/-- What the decoration on `n` reports as has_active_descendant (`node_state.is_child_active`),
if `n` carries a decoration. -/
def DecoTree.is_child_active (t : DecoTree) (n : Node) : Option Bool :=
  (t.deco n).map NodeState.is_child_active

/-! ## Concrete inputs -/

/-- A 10 x 10 frame with border width 1 and corner radius 2. -/
def BorderSubSurf.frame10 : BorderSubSurf.Spec := ⟨⟨0, 0, 10, 10⟩, 1, 2⟩

/-- A tree whose decorated root container `[]` holds the decorated container `[0]`, with the
view `[0, 0]` in it, and the view `[1]`; the view `[0, 0]` is active, so both containers
report an active descendant. -/
def DecoTree.sample : DecoTree where
  is_split := fun n => decide (n = [] ∨ n = [0])
  deco := fun n =>
    if n = [] ∨ n = [0] then some { is_active := false, is_child_active := true } else none

/-! ## Visibility of the tab bar (`SplitDecoration::on_split_type_changed`) -/

/-- Whether a notification marks (`true`) or unmarks (`false`). -/
def Notification.active : Notification → Bool
  | .on_set_active _ active => active
  | .on_set_child_active _ active => active

/-- The view side of a container decoration: its tab entries, the visibility kept by
`wf::view_interface_t`, and the calls made so far to `set_visible`, `refresh_size` and
`::set_outer_corners`. -/
structure TabBarView where
  tabs : SplitDecoration
  visible : Bool
  set_visible_calls : List Bool
  refresh_size_calls : Nat
  set_outer_corners_calls : Nat
  deriving DecidableEq, Repr

/-- Embeds `is_visible ()` of `wf::view_interface_t`. -/
def TabBarView.is_visible (v : TabBarView) : Bool := v.visible

/-- Embeds `set_visible (visible)` of `wf::view_interface_t`: the flag takes the value, and the
call is recorded. -/
def TabBarView.set_visible (v : TabBarView) (visible : Bool) : TabBarView :=
  { v with visible := visible, set_visible_calls := v.set_visible_calls ++ [visible] }

/-- Modelled from the spec: `SplitDecoration::refresh_size` is only declared in `deco.hpp`; it
synchronises the dimensions and the padding with the node, which this state does not hold, and
the call is recorded. -/
def TabBarView.refresh_size (v : TabBarView) : TabBarView :=
  { v with refresh_size_calls := v.refresh_size_calls + 1 }

/-- The call `::set_outer_corners (node, outer_corners)`, recorded. -/
def TabBarView.set_outer_corners (v : TabBarView) : TabBarView :=
  { v with set_outer_corners_calls := v.set_outer_corners_calls + 1 }

/-- Embeds the handler `on_split_type_changed`; `is_stack` is `node->is_stack ()`. -/
def TabBarView.on_split_type_changed (is_stack : Bool) (v : TabBarView) : TabBarView :=
  let v :=
    if !is_stack && v.is_visible then v.set_visible false
    else if is_stack && !v.is_visible then v.set_visible true
    else v
  let v := v.refresh_size
  v.set_outer_corners

/-- Embeds `SplitDecoration::initialize`: it emits `on_split_type_changed`. -/
def TabBarView.initialize (is_stack : Bool) (v : TabBarView) : TabBarView :=
  v.on_split_type_changed is_stack

/-- A decoration fresh from its constructor, with the visibility `visible` that the view
starts with. -/
def TabBarView.new (children : List NodeRef) (visible : Bool) : TabBarView :=
  { tabs := SplitDecoration.new children, visible := visible, set_visible_calls := [],
    refresh_size_calls := 0, set_outer_corners_calls := 0 }

/-! ## Fullscreen and the surface of a window decoration (`ViewDecoration`) -/

/-- A call that moves the decoration surface. -/
inductive SurfaceCall where
  | attach_surface
  | detach_surface
  deriving DecidableEq, Repr

/-- A window decoration: whether the member `surface` ("surface swap, used when hiding the
surface from the node") holds the decoration surface, and the calls made so far to
`attach_surface` and `detach_surface`. -/
structure ViewDecoration where
  surface_held : Bool
  calls : List SurfaceCall
  deriving DecidableEq, Repr

/-- Modelled from the spec: `ViewDecoration::is_hidden` is only declared in `deco.hpp`; the
decoration is hidden (attached-hidden) while it holds its surface itself. -/
def ViewDecoration.is_hidden (d : ViewDecoration) : Bool := d.surface_held

/-- Modelled from the spec: `ViewDecoration::attach_surface` is only declared in `deco.hpp`; the
surface goes to the view, and the decoration is attached-visible. -/
def ViewDecoration.attach_surface (d : ViewDecoration) : ViewDecoration :=
  { surface_held := false, calls := d.calls ++ [SurfaceCall.attach_surface] }

/-- Modelled from the spec: `ViewDecoration::detach_surface` is only declared in `deco.hpp`; the
surface comes back from the view, and the decoration is attached-hidden. -/
def ViewDecoration.detach_surface (d : ViewDecoration) : ViewDecoration :=
  { surface_held := true, calls := d.calls ++ [SurfaceCall.detach_surface] }

/-- Embeds the constructor `ViewDecoration::ViewDecoration`, as far as the surface goes: the new
surface is stored in `surface` and attached unless the view is fullscreen. -/
def ViewDecoration.new (fullscreen : Bool) : ViewDecoration :=
  let d : ViewDecoration := { surface_held := true, calls := [] }
  if !fullscreen then d.attach_surface else d

/-- Embeds the handler `on_fullscreen`; `fullscreen` is `node->view->fullscreen` when the
signal arrives. -/
def ViewDecoration.on_fullscreen (fullscreen : Bool) (d : ViewDecoration) : ViewDecoration :=
  if fullscreen then
    if !d.is_hidden then d.detach_surface else d
  else
    if d.is_hidden then d.attach_surface else d

/-- A sequence of fullscreen-changed events, each with the flag of the view at that time. -/
def ViewDecoration.on_fullscreen_all (d : ViewDecoration) (events : List Bool) :
    ViewDecoration :=
  events.foldl (fun d fullscreen => d.on_fullscreen fullscreen) d

/-! ## Subscriptions of a window decoration (constructor and destructor of `ViewDecoration`) -/

/-- The objects a window decoration connects to. -/
inductive SignalSource where
  /-- The decorated node, `node`. -/
  | node
  /-- The view of the node, `node->view`. -/
  | view
  /-- The output of the workspace, `node->get_ws ()->output`. -/
  | output
  deriving DecidableEq, Repr

/-- The connection members of `ViewDecoration`. -/
inductive Connection where
  | on_padding_changed
  | on_prefered_split_type_changed
  | on_config_changed
  | on_detached
  | on_swf_fini
  | on_fullscreen
  deriving DecidableEq, Repr

/-- The subscriptions in force: which connection is connected to which source. -/
abbrev Subscriptions := List (SignalSource × Connection)

/-- Embeds `source->connect (&connection)`. -/
def Subscriptions.connect (s : Subscriptions) (source : SignalSource) (c : Connection) :
    Subscriptions :=
  s ++ [(source, c)]

/-- Embeds `source->disconnect (&connection)`: the connection is dropped from this source; when
it is not connected there, nothing happens. -/
def Subscriptions.disconnect (s : Subscriptions) (source : SignalSource) (c : Connection) :
    Subscriptions :=
  s.filter fun p => decide (p ≠ (source, c))

/-- The `connect` calls of the constructor `ViewDecoration::ViewDecoration`, in order. -/
def ViewDecoration.constructor_connects : List (SignalSource × Connection) :=
  [(SignalSource.node, Connection.on_padding_changed),
    (SignalSource.node, Connection.on_prefered_split_type_changed),
    (SignalSource.node, Connection.on_detached),
    (SignalSource.view, Connection.on_fullscreen),
    (SignalSource.output, Connection.on_swf_fini),
    (SignalSource.output, Connection.on_config_changed)]

/-- The `disconnect` calls of the destructor `ViewDecoration::~ViewDecoration`, in order. -/
def ViewDecoration.destructor_disconnects : List (SignalSource × Connection) :=
  [(SignalSource.output, Connection.on_config_changed),
    (SignalSource.output, Connection.on_detached),
    (SignalSource.view, Connection.on_fullscreen),
    (SignalSource.node, Connection.on_detached),
    (SignalSource.node, Connection.on_prefered_split_type_changed),
    (SignalSource.node, Connection.on_padding_changed)]

/-- One step of the destructor. -/
inductive TeardownStep where
  | erase_data
  | detach_surface
  | unmap
  | disconnect (source : SignalSource) (c : Connection)
  deriving DecidableEq, Repr

/-- Embeds the destructor `ViewDecoration::~ViewDecoration`: the steps it takes, in order, for a
decoration that is hidden or not. -/
def ViewDecoration.destructor_steps (is_hidden : Bool) : List TeardownStep :=
  [TeardownStep.erase_data] ++
  (if !is_hidden then [TeardownStep.detach_surface] else []) ++
  [TeardownStep.unmap] ++
  ViewDecoration.destructor_disconnects.map fun p => TeardownStep.disconnect p.1 p.2

/-- The subscriptions after the constructor has run on a decoration without any. -/
def ViewDecoration.subscriptions_after_constructor : Subscriptions :=
  ViewDecoration.constructor_connects.foldl (fun s p => s.connect p.1 p.2) []

/-- The effect of one destructor step on the subscriptions. -/
def Subscriptions.teardown_step (s : Subscriptions) : TeardownStep → Subscriptions
  | .disconnect source c => s.disconnect source c
  | _ => s

/-- The subscriptions left when the destructor body is over. -/
def ViewDecoration.subscriptions_after_destructor (is_hidden : Bool) : Subscriptions :=
  (ViewDecoration.destructor_steps is_hidden).foldl Subscriptions.teardown_step
    ViewDecoration.subscriptions_after_constructor

/-! ## Finalisation of a plugin (`SwayfirePlugin`) -/

/-- What a plugin does that can be seen from outside. -/
inductive PluginAction where
  | swf_init
  | swf_fini
  | connect_init
  | connect_fini
  | disconnect_init
  | disconnect_fini
  deriving DecidableEq, Repr

/-- Embeds the class `SwayfirePlugin`: the flag `has_finished`, whether `on_swayfire_init` and
`on_swayfire_fini` are connected to the output, and the actions taken so far. -/
structure SwayfirePlugin where
  has_finished : Bool := false
  init_connected : Bool := false
  fini_connected : Bool := false
  log : List PluginAction := []
  deriving DecidableEq, Repr

/-- Embeds the handler `on_swayfire_init`: it runs `swf_init ()`. -/
def SwayfirePlugin.on_swayfire_init (p : SwayfirePlugin) : SwayfirePlugin :=
  { p with log := p.log ++ [PluginAction.swf_init] }

/-- Embeds the handler `on_swayfire_fini`; `none` is the failure of
`assert (!has_finished)`. -/
def SwayfirePlugin.on_swayfire_fini (p : SwayfirePlugin) : Option SwayfirePlugin :=
  if p.has_finished then none
  else
    some
      { has_finished := true,
        init_connected := false,
        fini_connected := false,
        log := p.log ++
          [PluginAction.disconnect_init, PluginAction.disconnect_fini, PluginAction.swf_fini] }

/-- Embeds `SwayfirePlugin::init`; `core_present` says whether the output already carries the
data of the core plugin. -/
def SwayfirePlugin.init (core_present : Bool) (p : SwayfirePlugin) : SwayfirePlugin :=
  let p :=
    if core_present then p.on_swayfire_init
    else { p with init_connected := true, log := p.log ++ [PluginAction.connect_init] }
  { p with fini_connected := true, log := p.log ++ [PluginAction.connect_fini] }

/-- Embeds `SwayfirePlugin::fini`. -/
def SwayfirePlugin.fini (p : SwayfirePlugin) : Option SwayfirePlugin :=
  if !p.has_finished then p.on_swayfire_fini else some p

/-- The output emits `SwayfireFinish`: the handler runs when it is connected to the output. -/
def SwayfirePlugin.finish_signal (p : SwayfirePlugin) : Option SwayfirePlugin :=
  if p.fini_connected then p.on_swayfire_fini else some p

/-- What can happen to a plugin at the end of its life. -/
inductive PluginEvent where
  /-- A call of `fini ()`. -/
  | fini
  /-- The output emits `SwayfireFinish`. -/
  | finish_signal
  deriving DecidableEq, Repr

/-- One event. -/
def SwayfirePlugin.step (p : SwayfirePlugin) : PluginEvent → Option SwayfirePlugin
  | .fini => p.fini
  | .finish_signal => p.finish_signal

/-- A sequence of events; `none` as soon as the assertion fails. -/
def SwayfirePlugin.steps (p : SwayfirePlugin) : List PluginEvent → Option SwayfirePlugin
  | [] => some p
  | e :: rest => (p.step e).bind fun q => SwayfirePlugin.steps q rest

/-! ## Geometry of the tab bar (`SplitDecoration::on_geometry_changed`) -/

/-- Embeds `GeometryChangedSignalData`. -/
structure GeometryChangedSignalData where
  old_geo : wf.geometry_t
  new_geo : wf.geometry_t
  deriving DecidableEq, Repr

/-- The geometry side of a container decoration: the members `geometry` and `cached_region`,
and the calls made so far to `cache_textures` and `damage`. -/
structure TabBarGeometry where
  geometry : wf.geometry_t := ⟨0, 0, 0, 0⟩
  cached_region : wf.region_t := []
  cache_textures_calls : Nat := 0
  damage_calls : Nat := 0
  deriving DecidableEq, Repr

/-- The call `damage ()`, recorded. -/
def TabBarGeometry.damage (d : TabBarGeometry) : TabBarGeometry :=
  { d with damage_calls := d.damage_calls + 1 }

/-- The call `cache_textures ()`, recorded: the textures are rebuilt. -/
def TabBarGeometry.cache_textures (d : TabBarGeometry) : TabBarGeometry :=
  { d with cache_textures_calls := d.cache_textures_calls + 1 }

/-- Embeds the handler `on_geometry_changed`. `inner_geo` is `node->get_inner_geometry ()`;
`calculate_region`, only declared in `deco.hpp`, is a parameter: the region it computes from
the geometry of the decoration. -/
def TabBarGeometry.on_geometry_changed (calculate_region : wf.geometry_t → wf.region_t)
    (inner_geo : wf.geometry_t) (data : GeometryChangedSignalData) (d : TabBarGeometry) :
    TabBarGeometry :=
  let needs_geo_refresh : Bool := decide (d.geometry.width = 0) || decide (d.geometry.height = 0)
  if data.old_geo = data.new_geo ∧ needs_geo_refresh = false then d
  else
    let titlebar_size_changed : Bool := decide (d.geometry.width ≠ inner_geo.width)
    let d := d.damage
    let d :=
      { d with
        geometry :=
          ⟨inner_geo.x, inner_geo.y - d.geometry.height, inner_geo.width, d.geometry.height⟩ }
    let d := if titlebar_size_changed then d.cache_textures else d
    let d := { d with cached_region := calculate_region d.geometry }
    d.damage

/-- Whether the handler returns at once: `old_geo == new_geo` and the geometry needs no
refresh. -/
def TabBarGeometry.skipped (data : GeometryChangedSignalData) (d : TabBarGeometry) : Prop :=
  data.old_geo = data.new_geo ∧ d.geometry.width ≠ 0 ∧ d.geometry.height ≠ 0

/-! # Theorems -/

/-! ## Rectangles and sectors: hit tests in closed form -/

theorem RectSubSurf.rect_contains_point_iff (geo : wf.geometry_t) (pt : wf.point_t) :
    RectSubSurf.contains_point geo pt = true ↔
      geo.x ≤ pt.x ∧ pt.x < geo.x + geo.width ∧ geo.y ≤ pt.y ∧ pt.y < geo.y + geo.height := by
  simp [RectSubSurf.contains_point, wf.region_t.contains_point, wf.geometry_t.contains_point,
    and_assoc]

theorem CurveSubSurf.curve_contains_point_iff (spec : CurveSubSurf.Spec) (pt : wf.point_t) :
    CurveSubSurf.contains_point spec pt = true ↔
      (((spec.radius - spec.stroke_width : Int) : ℝ) ≤ CurveSubSurf.dist spec pt ∧
        CurveSubSurf.dist spec pt ≤ (spec.radius : ℝ)) ∧
      (spec.theta_a ≤ CurveSubSurf.angle spec pt ∧ CurveSubSurf.angle spec pt ≤ spec.theta_b) := by
  unfold CurveSubSurf.contains_point
  simp only []
  split_ifs with h1 h2
  · simp only [Bool.false_eq_true, false_iff]
    rintro ⟨⟨ha, hb⟩, -⟩
    rcases h1 with h | h
    · exact absurd hb (not_le.mpr h)
    · exact absurd ha (not_le.mpr h)
  · simp only [Bool.false_eq_true, false_iff]
    rintro ⟨-, ha, hb⟩
    rcases h2 with h | h
    · exact absurd ha (not_le.mpr h)
    · exact absurd hb (not_le.mpr h)
  · simp only [true_iff]
    push_neg at h1 h2
    exact ⟨⟨h1.2, h1.1⟩, h2.1, h2.2⟩

/-- The radius test `dist ≤ radius`, on integers. -/
theorem CurveSubSurf.dist_le_iff (spec : CurveSubSurf.Spec) (pt : wf.point_t) (R : Int) :
    CurveSubSurf.dist spec pt ≤ (R : ℝ) ↔
      0 ≤ R ∧ (pt.x - spec.origin.x) ^ 2 + (pt.y - spec.origin.y) ^ 2 ≤ R ^ 2 := by
  unfold CurveSubSurf.dist wf.point_t.sub
  simp only []
  rw [Real.sqrt_le_iff]
  constructor
  · rintro ⟨h0, h⟩
    refine ⟨by exact_mod_cast h0, ?_⟩
    have h2 : (((pt.x - spec.origin.x) * (pt.x - spec.origin.x) +
        (pt.y - spec.origin.y) * (pt.y - spec.origin.y) : Int) : ℝ) ≤ ((R ^ 2 : Int) : ℝ) := by
      push_cast
      push_cast at h
      exact h
    have h3 := Int.cast_le.mp h2
    nlinarith [h3]
  · rintro ⟨h0, h⟩
    refine ⟨by exact_mod_cast h0, ?_⟩
    have h2 : (((pt.x - spec.origin.x) * (pt.x - spec.origin.x) +
        (pt.y - spec.origin.y) * (pt.y - spec.origin.y) : Int) : ℝ) ≤ ((R ^ 2 : Int) : ℝ) := by
      apply Int.cast_le.mpr
      nlinarith [h]
    push_cast at h2
    push_cast
    exact h2

/-- The radius test `inner_radius ≤ dist`, on integers. -/
theorem CurveSubSurf.le_dist_iff (spec : CurveSubSurf.Spec) (pt : wf.point_t) (I : Int) :
    (I : ℝ) ≤ CurveSubSurf.dist spec pt ↔
      I ≤ 0 ∨ I ^ 2 ≤ (pt.x - spec.origin.x) ^ 2 + (pt.y - spec.origin.y) ^ 2 := by
  unfold CurveSubSurf.dist wf.point_t.sub
  simp only []
  rcases le_or_lt I 0 with hI | hI
  · simp only [hI, true_or, iff_true]
    have h0 : (I : ℝ) ≤ 0 := by exact_mod_cast hI
    exact le_trans h0 (Real.sqrt_nonneg _)
  · have hI' : (0 : ℝ) < (I : ℝ) := by exact_mod_cast hI
    rw [Real.le_sqrt' hI']
    have hn : ¬ I ≤ 0 := not_le.mpr hI
    simp only [hn, false_or]
    constructor
    · intro h
      have h2 : ((I ^ 2 : Int) : ℝ) ≤ (((pt.x - spec.origin.x) * (pt.x - spec.origin.x) +
          (pt.y - spec.origin.y) * (pt.y - spec.origin.y) : Int) : ℝ) := by
        push_cast
        push_cast at h
        exact h
      have h3 := Int.cast_le.mp h2
      nlinarith [h3]
    · intro h
      have h2 : ((I ^ 2 : Int) : ℝ) ≤ (((pt.x - spec.origin.x) * (pt.x - spec.origin.x) +
          (pt.y - spec.origin.y) * (pt.y - spec.origin.y) : Int) : ℝ) := by
        apply Int.cast_le.mpr
        nlinarith [h]
      push_cast at h2
      push_cast
      exact h2

/-! ## The four quarter turns of `atan2 (y, x) + M_PI` -/

theorem atan2_quarter_top_left (y x : ℝ) :
    (Real.pi / 2 ≤ atan2 y x + Real.pi ∧ atan2 y x + Real.pi ≤ Real.pi) ↔ y ≤ 0 ∧ 0 ≤ x := by
  have h1 := @Complex.arg_neg_iff ⟨x, y⟩
  have h2 := @Complex.arg_eq_zero_iff ⟨x, y⟩
  have h3 := @Complex.neg_pi_div_two_le_arg_iff ⟨x, y⟩
  simp only [] at h1 h2 h3
  unfold atan2
  constructor
  · rintro ⟨ha, hb⟩
    have ha' : -(Real.pi / 2) ≤ Complex.arg ⟨x, y⟩ := by linarith
    have hb' : Complex.arg ⟨x, y⟩ ≤ 0 := by linarith
    rcases lt_or_eq_of_le hb' with h | h
    · have hy := h1.mp h
      rcases h3.mp ha' with hx | hy'
      · exact ⟨le_of_lt hy, hx⟩
      · exact absurd hy (not_lt.mpr hy')
    · obtain ⟨hx, hy⟩ := h2.mp h
      exact ⟨le_of_eq hy, hx⟩
  · rintro ⟨hy, hx⟩
    have ha' : -(Real.pi / 2) ≤ Complex.arg ⟨x, y⟩ := h3.mpr (Or.inl hx)
    have hb' : Complex.arg ⟨x, y⟩ ≤ 0 := by
      rcases lt_or_eq_of_le hy with h | h
      · exact le_of_lt (h1.mpr h)
      · exact le_of_eq (h2.mpr ⟨hx, h⟩)
    constructor <;> linarith

theorem atan2_quarter_top_right (y x : ℝ) :
    (0 ≤ atan2 y x + Real.pi ∧ atan2 y x + Real.pi ≤ Real.pi / 2) ↔ y < 0 ∧ x ≤ 0 := by
  have h1 := @Complex.arg_eq_neg_pi_div_two_iff ⟨x, y⟩
  have h3 := @Complex.neg_pi_div_two_le_arg_iff ⟨x, y⟩
  have h4 := (Complex.arg_mem_Ioc ⟨x, y⟩).1
  simp only [] at h1 h3
  unfold atan2
  constructor
  · rintro ⟨-, hb⟩
    have hb' : Complex.arg ⟨x, y⟩ ≤ -(Real.pi / 2) := by linarith
    rcases lt_or_eq_of_le hb' with h | h
    · have hn : ¬ (0 ≤ x ∨ 0 ≤ y) := fun hc => absurd (h3.mpr hc) (not_le.mpr h)
      push_neg at hn
      exact ⟨hn.2, le_of_lt hn.1⟩
    · obtain ⟨hx, hy⟩ := h1.mp h
      exact ⟨hy, le_of_eq hx⟩
  · rintro ⟨hy, hx⟩
    refine ⟨by linarith, ?_⟩
    rcases lt_or_eq_of_le hx with h | h
    · have hn : ¬ (-(Real.pi / 2) ≤ Complex.arg ⟨x, y⟩) := by
        rw [h3]
        push_neg
        exact ⟨h, hy⟩
      linarith [not_le.mp hn]
    · have := h1.mpr ⟨h, hy⟩
      linarith

theorem atan2_quarter_bottom_left (y x : ℝ) :
    (Real.pi ≤ atan2 y x + Real.pi ∧ atan2 y x + Real.pi ≤ Real.pi + Real.pi / 2) ↔
      0 ≤ y ∧ 0 ≤ x := by
  have h1 := @Complex.arg_nonneg_iff ⟨x, y⟩
  have h2 := @Complex.arg_le_pi_div_two_iff ⟨x, y⟩
  simp only [] at h1 h2
  unfold atan2
  constructor
  · rintro ⟨ha, hb⟩
    have hy := h1.mp (by linarith)
    rcases h2.mp (by linarith) with hx | hy'
    · exact ⟨hy, hx⟩
    · exact absurd hy' (not_lt.mpr hy)
  · rintro ⟨hy, hx⟩
    have ha := h1.mpr hy
    have hb := h2.mpr (Or.inl hx)
    constructor <;> linarith

theorem atan2_quarter_bottom_right (y x : ℝ) :
    (Real.pi + Real.pi / 2 ≤ atan2 y x + Real.pi ∧ atan2 y x + Real.pi ≤ 2 * Real.pi) ↔
      0 ≤ y ∧ x ≤ 0 ∧ ¬ (x = 0 ∧ y = 0) := by
  have h1 := @Complex.arg_eq_pi_div_two_iff ⟨x, y⟩
  have h2 := @Complex.arg_le_pi_div_two_iff ⟨x, y⟩
  have h4 := (Complex.arg_mem_Ioc ⟨x, y⟩).2
  simp only [] at h1 h2
  unfold atan2
  constructor
  · rintro ⟨ha, -⟩
    have ha' : Real.pi / 2 ≤ Complex.arg ⟨x, y⟩ := by linarith
    rcases lt_or_eq_of_le ha' with h | h
    · have hn : ¬ (0 ≤ x ∨ y < 0) := fun hc => absurd (h2.mpr hc) (not_le.mpr h)
      push_neg at hn
      exact ⟨hn.2, le_of_lt hn.1, fun hc => absurd hc.1 (ne_of_lt hn.1)⟩
    · obtain ⟨hx, hy⟩ := h1.mp h.symm
      exact ⟨le_of_lt hy, le_of_eq hx, fun hc => absurd hc.2 (ne_of_gt hy)⟩
  · rintro ⟨hy, hx, hne⟩
    refine ⟨?_, by linarith⟩
    rcases lt_or_eq_of_le hx with h | h
    · have hn : ¬ (Complex.arg ⟨x, y⟩ ≤ Real.pi / 2) := by
        rw [h2]
        push_neg
        exact ⟨h, hy⟩
      linarith [not_le.mp hn]
    · have hy' : 0 < y := lt_of_le_of_ne hy (fun hc => hne ⟨h, hc.symm⟩)
      have := h1.mpr ⟨h, hy'⟩
      linarith

/-! ## The corner sectors of a border, on integers -/

theorem BorderSubSurf.top_left_contains_iff (spec : BorderSubSurf.Spec) (pt : wf.point_t) :
    CurveSubSurf.contains_point (BorderSubSurf.subspecs spec).top_left pt = true ↔
      (0 ≤ spec.border_radius ∧
        (pt.x - spec.border_radius) ^ 2 + (pt.y - spec.border_radius) ^ 2
          ≤ spec.border_radius ^ 2) ∧
      (spec.border_radius - spec.border_width ≤ 0 ∨
        (spec.border_radius - spec.border_width) ^ 2
          ≤ (pt.x - spec.border_radius) ^ 2 + (pt.y - spec.border_radius) ^ 2) ∧
      (pt.y ≤ spec.border_radius ∧ pt.x ≤ spec.border_radius) := by
  rw [CurveSubSurf.curve_contains_point_iff, CurveSubSurf.dist_le_iff, CurveSubSurf.le_dist_iff]
  have hq := atan2_quarter_top_left
    ((pt.y - spec.border_radius : Int) : ℝ) ((-(pt.x - spec.border_radius) : Int) : ℝ)
  simp only [BorderSubSurf.subspecs, CurveSubSurf.angle, wf.point_t.sub]
  rw [hq]
  have e1 : ((pt.y - spec.border_radius : Int) : ℝ) ≤ 0 ↔ pt.y ≤ spec.border_radius := by
    rw [show (0 : ℝ) = ((0 : Int) : ℝ) by norm_num, Int.cast_le]; omega
  have e2 : (0 : ℝ) ≤ ((-(pt.x - spec.border_radius) : Int) : ℝ) ↔
      pt.x ≤ spec.border_radius := by
    rw [show (0 : ℝ) = ((0 : Int) : ℝ) by norm_num, Int.cast_le]; omega
  rw [e1, e2]
  exact ⟨fun ⟨⟨h1, h2⟩, h3⟩ => ⟨h2, h1, h3⟩, fun ⟨h2, h1, h3⟩ => ⟨⟨h1, h2⟩, h3⟩⟩

theorem BorderSubSurf.top_right_contains_iff (spec : BorderSubSurf.Spec) (pt : wf.point_t) :
    CurveSubSurf.contains_point (BorderSubSurf.subspecs spec).top_right pt = true ↔
      (0 ≤ spec.border_radius ∧
        (pt.x - (spec.geo.width - spec.border_radius)) ^ 2 + (pt.y - spec.border_radius) ^ 2
          ≤ spec.border_radius ^ 2) ∧
      (spec.border_radius - spec.border_width ≤ 0 ∨
        (spec.border_radius - spec.border_width) ^ 2
          ≤ (pt.x - (spec.geo.width - spec.border_radius)) ^ 2 +
            (pt.y - spec.border_radius) ^ 2) ∧
      (pt.y < spec.border_radius ∧ spec.geo.width - spec.border_radius ≤ pt.x) := by
  rw [CurveSubSurf.curve_contains_point_iff, CurveSubSurf.dist_le_iff, CurveSubSurf.le_dist_iff]
  have hq := atan2_quarter_top_right ((pt.y - spec.border_radius : Int) : ℝ)
    ((-(pt.x - (spec.geo.width - spec.border_radius)) : Int) : ℝ)
  simp only [BorderSubSurf.subspecs, CurveSubSurf.angle, wf.point_t.sub]
  rw [hq]
  have e1 : ((pt.y - spec.border_radius : Int) : ℝ) < 0 ↔ pt.y < spec.border_radius := by
    rw [show (0 : ℝ) = ((0 : Int) : ℝ) by norm_num, Int.cast_lt]; omega
  have e2 : ((-(pt.x - (spec.geo.width - spec.border_radius)) : Int) : ℝ) ≤ 0 ↔
      spec.geo.width - spec.border_radius ≤ pt.x := by
    rw [show (0 : ℝ) = ((0 : Int) : ℝ) by norm_num, Int.cast_le]; omega
  rw [e1, e2]
  exact ⟨fun ⟨⟨h1, h2⟩, h3⟩ => ⟨h2, h1, h3⟩, fun ⟨h2, h1, h3⟩ => ⟨⟨h1, h2⟩, h3⟩⟩

theorem BorderSubSurf.bottom_left_contains_iff (spec : BorderSubSurf.Spec) (pt : wf.point_t) :
    CurveSubSurf.contains_point (BorderSubSurf.subspecs spec).bottom_left pt = true ↔
      (0 ≤ spec.border_radius ∧
        (pt.x - spec.border_radius) ^ 2 + (pt.y - (spec.geo.height - spec.border_radius)) ^ 2
          ≤ spec.border_radius ^ 2) ∧
      (spec.border_radius - spec.border_width ≤ 0 ∨
        (spec.border_radius - spec.border_width) ^ 2
          ≤ (pt.x - spec.border_radius) ^ 2 +
            (pt.y - (spec.geo.height - spec.border_radius)) ^ 2) ∧
      (spec.geo.height - spec.border_radius ≤ pt.y ∧ pt.x ≤ spec.border_radius) := by
  rw [CurveSubSurf.curve_contains_point_iff, CurveSubSurf.dist_le_iff, CurveSubSurf.le_dist_iff]
  have hq := atan2_quarter_bottom_left
    ((pt.y - (spec.geo.height - spec.border_radius) : Int) : ℝ)
    ((-(pt.x - spec.border_radius) : Int) : ℝ)
  simp only [BorderSubSurf.subspecs, CurveSubSurf.angle, wf.point_t.sub]
  rw [hq]
  have e1 : (0 : ℝ) ≤ ((pt.y - (spec.geo.height - spec.border_radius) : Int) : ℝ) ↔
      spec.geo.height - spec.border_radius ≤ pt.y := by
    rw [show (0 : ℝ) = ((0 : Int) : ℝ) by norm_num, Int.cast_le]; omega
  have e2 : (0 : ℝ) ≤ ((-(pt.x - spec.border_radius) : Int) : ℝ) ↔
      pt.x ≤ spec.border_radius := by
    rw [show (0 : ℝ) = ((0 : Int) : ℝ) by norm_num, Int.cast_le]; omega
  rw [e1, e2]
  exact ⟨fun ⟨⟨h1, h2⟩, h3⟩ => ⟨h2, h1, h3⟩, fun ⟨h2, h1, h3⟩ => ⟨⟨h1, h2⟩, h3⟩⟩

theorem BorderSubSurf.bottom_right_contains_iff (spec : BorderSubSurf.Spec) (pt : wf.point_t) :
    CurveSubSurf.contains_point (BorderSubSurf.subspecs spec).bottom_right pt = true ↔
      (0 ≤ spec.border_radius ∧
        (pt.x - (spec.geo.width - spec.border_radius)) ^ 2 +
          (pt.y - (spec.geo.height - spec.border_radius)) ^ 2 ≤ spec.border_radius ^ 2) ∧
      (spec.border_radius - spec.border_width ≤ 0 ∨
        (spec.border_radius - spec.border_width) ^ 2
          ≤ (pt.x - (spec.geo.width - spec.border_radius)) ^ 2 +
            (pt.y - (spec.geo.height - spec.border_radius)) ^ 2) ∧
      (spec.geo.height - spec.border_radius ≤ pt.y ∧
        spec.geo.width - spec.border_radius ≤ pt.x ∧
        ¬ (pt.x = spec.geo.width - spec.border_radius ∧
          pt.y = spec.geo.height - spec.border_radius)) := by
  rw [CurveSubSurf.curve_contains_point_iff, CurveSubSurf.dist_le_iff, CurveSubSurf.le_dist_iff]
  have hq := atan2_quarter_bottom_right
    ((pt.y - (spec.geo.height - spec.border_radius) : Int) : ℝ)
    ((-(pt.x - (spec.geo.width - spec.border_radius)) : Int) : ℝ)
  simp only [BorderSubSurf.subspecs, CurveSubSurf.angle, wf.point_t.sub]
  rw [hq]
  have e1 : (0 : ℝ) ≤ ((pt.y - (spec.geo.height - spec.border_radius) : Int) : ℝ) ↔
      spec.geo.height - spec.border_radius ≤ pt.y := by
    rw [show (0 : ℝ) = ((0 : Int) : ℝ) by norm_num, Int.cast_le]; omega
  have e2 : ((-(pt.x - (spec.geo.width - spec.border_radius)) : Int) : ℝ) ≤ 0 ↔
      spec.geo.width - spec.border_radius ≤ pt.x := by
    rw [show (0 : ℝ) = ((0 : Int) : ℝ) by norm_num, Int.cast_le]; omega
  have e3 : ((-(pt.x - (spec.geo.width - spec.border_radius)) : Int) : ℝ) = 0 ↔
      pt.x = spec.geo.width - spec.border_radius := by
    rw [show (0 : ℝ) = ((0 : Int) : ℝ) by norm_num, Int.cast_inj]; omega
  have e4 : ((pt.y - (spec.geo.height - spec.border_radius) : Int) : ℝ) = 0 ↔
      pt.y = spec.geo.height - spec.border_radius := by
    rw [show (0 : ℝ) = ((0 : Int) : ℝ) by norm_num, Int.cast_inj]; omega
  rw [e1, e2, e3, e4]
  exact ⟨fun ⟨⟨h1, h2⟩, h3⟩ => ⟨h2, h1, h3⟩, fun ⟨h2, h1, h3⟩ => ⟨⟨h1, h2⟩, h3⟩⟩

/-! ## C1, C2, C4: the shapes of a border -/

/-- C1: for every border spec with frame `w x h`, border width `bw` and corner radius `r`,
`BorderSubSurf::subspecs` gives the edge rectangles left `(0, r, bw, h - 2r)`, right
`(w - bw, r, bw, h - 2r)`, top `(r, 0, w - 2r, bw)` and bottom `(r, h - bw, w - 2r, bw)`. -/
theorem BorderSubSurf.subspecs_edges (spec : BorderSubSurf.Spec) :
    (BorderSubSurf.subspecs spec).left =
        ⟨0, spec.border_radius, spec.border_width,
          spec.geo.height - 2 * spec.border_radius⟩ ∧
      (BorderSubSurf.subspecs spec).right =
        ⟨spec.geo.width - spec.border_width, spec.border_radius, spec.border_width,
          spec.geo.height - 2 * spec.border_radius⟩ ∧
      (BorderSubSurf.subspecs spec).top =
        ⟨spec.border_radius, 0, spec.geo.width - 2 * spec.border_radius,
          spec.border_width⟩ ∧
      (BorderSubSurf.subspecs spec).bottom =
        ⟨spec.border_radius, spec.geo.height - spec.border_width,
          spec.geo.width - 2 * spec.border_radius, spec.border_width⟩ :=
  ⟨rfl, rfl, rfl, rfl⟩

/-- C2: `CurveSubSurf::contains_point (spec, pt)` is true exactly when the distance from `pt`
to the origin lies in `[radius - stroke_width, radius]` and the angle `atan2 (dy, -dx) + pi`
lies in `[theta_a, theta_b]`; it is false as soon as one of the two fails. -/
theorem CurveSubSurf.contains_point_iff_distance_and_angle (spec : CurveSubSurf.Spec)
    (pt : wf.point_t) :
    (CurveSubSurf.contains_point spec pt = true ↔
      (((spec.radius - spec.stroke_width : Int) : ℝ) ≤
          Real.sqrt ((((pt.x - spec.origin.x) * (pt.x - spec.origin.x) +
            (pt.y - spec.origin.y) * (pt.y - spec.origin.y) : Int)) : ℝ) ∧
        Real.sqrt ((((pt.x - spec.origin.x) * (pt.x - spec.origin.x) +
            (pt.y - spec.origin.y) * (pt.y - spec.origin.y) : Int)) : ℝ) ≤ (spec.radius : ℝ)) ∧
      (spec.theta_a ≤
          atan2 ((pt.y - spec.origin.y : Int) : ℝ) ((-(pt.x - spec.origin.x) : Int) : ℝ) +
            Real.pi ∧
        atan2 ((pt.y - spec.origin.y : Int) : ℝ) ((-(pt.x - spec.origin.x) : Int) : ℝ) +
            Real.pi ≤ spec.theta_b)) ∧
    (CurveSubSurf.contains_point spec pt = false ↔
      ¬ (((spec.radius - spec.stroke_width : Int) : ℝ) ≤
          Real.sqrt ((((pt.x - spec.origin.x) * (pt.x - spec.origin.x) +
            (pt.y - spec.origin.y) * (pt.y - spec.origin.y) : Int)) : ℝ) ∧
        Real.sqrt ((((pt.x - spec.origin.x) * (pt.x - spec.origin.x) +
            (pt.y - spec.origin.y) * (pt.y - spec.origin.y) : Int)) : ℝ) ≤ (spec.radius : ℝ)) ∨
      ¬ (spec.theta_a ≤
          atan2 ((pt.y - spec.origin.y : Int) : ℝ) ((-(pt.x - spec.origin.x) : Int) : ℝ) +
            Real.pi ∧
        atan2 ((pt.y - spec.origin.y : Int) : ℝ) ((-(pt.x - spec.origin.x) : Int) : ℝ) +
            Real.pi ≤ spec.theta_b)) := by
  have h := CurveSubSurf.curve_contains_point_iff spec pt
  simp only [CurveSubSurf.dist, CurveSubSurf.angle, wf.point_t.sub] at h
  refine ⟨h, ?_⟩
  rw [← not_and_or, ← h]
  simp

/-- C4: the corner sectors of `BorderSubSurf::subspecs` have the centres `(r, r)`,
`(w - r, r)`, `(r, h - r)`, `(w - r, h - r)`, outer radius `r`, stroke width `bw` (inner radius
`r - bw`) and the angular ranges `[pi/2, pi]`, `[0, pi/2]`, `[pi, 3pi/2]`, `[3pi/2, 2pi]` for
top-left, top-right, bottom-left, bottom-right; each range is a quarter turn. -/
theorem BorderSubSurf.subspecs_corners (spec : BorderSubSurf.Spec) :
    ((BorderSubSurf.subspecs spec).top_left =
        ⟨⟨spec.border_radius, spec.border_radius⟩, Real.pi / 2, Real.pi,
          spec.border_radius, spec.border_width⟩ ∧
      (BorderSubSurf.subspecs spec).top_right =
        ⟨⟨spec.geo.width - spec.border_radius, spec.border_radius⟩, 0, Real.pi / 2,
          spec.border_radius, spec.border_width⟩ ∧
      (BorderSubSurf.subspecs spec).bottom_left =
        ⟨⟨spec.border_radius, spec.geo.height - spec.border_radius⟩, Real.pi,
          3 * Real.pi / 2, spec.border_radius, spec.border_width⟩ ∧
      (BorderSubSurf.subspecs spec).bottom_right =
        ⟨⟨spec.geo.width - spec.border_radius, spec.geo.height - spec.border_radius⟩,
          3 * Real.pi / 2, 2 * Real.pi, spec.border_radius, spec.border_width⟩) ∧
    (∀ c ∈ [(BorderSubSurf.subspecs spec).top_left, (BorderSubSurf.subspecs spec).top_right,
        (BorderSubSurf.subspecs spec).bottom_left, (BorderSubSurf.subspecs spec).bottom_right],
      c.theta_b - c.theta_a = Real.pi / 2 ∧
        c.radius - c.stroke_width = spec.border_radius - spec.border_width) := by
  have e : Real.pi + Real.pi / 2 = 3 * Real.pi / 2 := by ring
  refine ⟨⟨rfl, rfl, ?_, ?_⟩, ?_⟩
  · simp only [BorderSubSurf.subspecs, e]
  · simp only [BorderSubSurf.subspecs, e]
  · intro c hc
    simp only [List.mem_cons, List.mem_singleton, List.not_mem_nil, or_false] at hc
    rcases hc with rfl | rfl | rfl | rfl <;> simp only [BorderSubSurf.subspecs] <;>
      constructor <;> first | trivial | linarith

/-! ## C3: the corner sectors do not depend on a corner mask -/

/-- C3, as stated, fails: on the 10 x 10 frame the point `(1, 1)` lies in no edge rectangle
and in the top-left sector only; `BorderSubSurf::contains_point` accepts it, although the
composer of the specification with no corner flagged rejects it, and the region and the draw
calls of the code differ from those of that composer as well. -/
theorem BorderSubSurf.corner_mask_counterexample :
    BorderComposer.flagged Corner.NONE Corner.TOP_LEFT = false ∧
      RectSubSurf.contains_point (BorderSubSurf.subspecs BorderSubSurf.frame10).left ⟨1, 1⟩
        = false ∧
      RectSubSurf.contains_point (BorderSubSurf.subspecs BorderSubSurf.frame10).right ⟨1, 1⟩
        = false ∧
      RectSubSurf.contains_point (BorderSubSurf.subspecs BorderSubSurf.frame10).top ⟨1, 1⟩
        = false ∧
      RectSubSurf.contains_point (BorderSubSurf.subspecs BorderSubSurf.frame10).bottom ⟨1, 1⟩
        = false ∧
      CurveSubSurf.contains_point (BorderSubSurf.subspecs BorderSubSurf.frame10).top_left ⟨1, 1⟩
        = true ∧
      BorderSubSurf.contains_point BorderSubSurf.frame10 ⟨1, 1⟩ = true ∧
      BorderComposer.contains_point Corner.NONE BorderSubSurf.frame10 ⟨1, 1⟩ = false ∧
      (BorderSubSurf.calculate_region BorderSubSurf.frame10).length = 8 ∧
      (BorderComposer.calculate_region Corner.NONE BorderSubSurf.frame10).length = 4 ∧
      (BorderSubSurf.render BorderSubSurf.frame10 (⟨(), (), ()⟩ : BorderSubSurf.Colors Unit)
        ⟨0, 0⟩ ()).length = 8 ∧
      (BorderComposer.render Corner.NONE BorderSubSurf.frame10
        (⟨(), (), ()⟩ : BorderSubSurf.Colors Unit) ⟨0, 0⟩ ()).length = 4 := by
  have htl : CurveSubSurf.contains_point
      (BorderSubSurf.subspecs BorderSubSurf.frame10).top_left ⟨1, 1⟩ = true :=
    (BorderSubSurf.top_left_contains_iff BorderSubSurf.frame10 ⟨1, 1⟩).mpr (by decide)
  have hl : RectSubSurf.contains_point
      (BorderSubSurf.subspecs BorderSubSurf.frame10).left ⟨1, 1⟩ = false := by decide
  have hr : RectSubSurf.contains_point
      (BorderSubSurf.subspecs BorderSubSurf.frame10).right ⟨1, 1⟩ = false := by decide
  have ht : RectSubSurf.contains_point
      (BorderSubSurf.subspecs BorderSubSurf.frame10).top ⟨1, 1⟩ = false := by decide
  have hb : RectSubSurf.contains_point
      (BorderSubSurf.subspecs BorderSubSurf.frame10).bottom ⟨1, 1⟩ = false := by decide
  have hf : ∀ c, BorderComposer.flagged Corner.NONE c = false := by
    intro c
    simp [BorderComposer.flagged, Corner.NONE]
  refine ⟨hf _, hl, hr, ht, hb, htl, ?_, ?_, rfl, ?_, rfl, ?_⟩
  · simp [BorderSubSurf.contains_point, htl]
  · simp [BorderComposer.contains_point, hf, hl, hr, ht, hb]
  · simp [BorderComposer.calculate_region, hf, RectSubSurf.calculate_region]
  · simp [BorderComposer.render, hf, RectSubSurf.render]

/-- C3, amended: `BorderSubSurf` takes no corner mask; its hit test, its region and its draw
calls always include the sector of every corner, that is, they are those of the composer of
the specification with all four corners flagged. -/
theorem BorderSubSurf.always_all_corners {C M : Type} (spec : BorderSubSurf.Spec)
    (pt : wf.point_t) (colors : BorderSubSurf.Colors C) (origin : wf.point_t) (matrix : M) :
    BorderSubSurf.contains_point spec pt = BorderComposer.contains_point Corner.ALL spec pt ∧
      BorderSubSurf.calculate_region spec = BorderComposer.calculate_region Corner.ALL spec ∧
      BorderSubSurf.render spec colors origin matrix =
        BorderComposer.render Corner.ALL spec colors origin matrix := by
  have h1 : BorderComposer.flagged Corner.ALL Corner.TOP_LEFT = true := by decide
  have h2 : BorderComposer.flagged Corner.ALL Corner.TOP_RIGHT = true := by decide
  have h3 : BorderComposer.flagged Corner.ALL Corner.BOTTOM_LEFT = true := by decide
  have h4 : BorderComposer.flagged Corner.ALL Corner.BOTTOM_RIGHT = true := by decide
  refine ⟨?_, ?_, ?_⟩
  · simp only [BorderSubSurf.contains_point, BorderComposer.contains_point, h1, h2, h3, h4,
      Bool.true_and]
  · simp only [BorderSubSurf.calculate_region, BorderComposer.calculate_region, h1, h2, h3, h4,
      if_true]
  · simp only [BorderSubSurf.render, BorderComposer.render, h1, h2, h3, h4, if_true]

/-! ## C5: every sector stays in the square of its corner -/

theorem abs_bounds_of_sq_add_sq_le {a b r : Int} (hr : 0 ≤ r) (h : a ^ 2 + b ^ 2 ≤ r ^ 2) :
    (-r ≤ a ∧ a ≤ r) ∧ (-r ≤ b ∧ b ≤ r) := by
  have ha : a ^ 2 ≤ r ^ 2 := by nlinarith [sq_nonneg b]
  have hb : b ^ 2 ≤ r ^ 2 := by nlinarith [sq_nonneg a]
  exact ⟨abs_le_of_sq_le_sq' ha hr, abs_le_of_sq_le_sq' hb hr⟩

/-- C5: for every border spec with `r ≥ 0`, a point accepted by `CurveSubSurf::contains_point`
for the sector of a corner lies in the closed `r x r` square of the frame at that corner. -/
theorem BorderSubSurf.sector_in_corner_square (spec : BorderSubSurf.Spec) (pt : wf.point_t)
    (_hr : 0 ≤ spec.border_radius) :
    (CurveSubSurf.contains_point (BorderSubSurf.subspecs spec).top_left pt = true →
        (0 ≤ pt.x ∧ pt.x ≤ spec.border_radius) ∧ (0 ≤ pt.y ∧ pt.y ≤ spec.border_radius)) ∧
      (CurveSubSurf.contains_point (BorderSubSurf.subspecs spec).top_right pt = true →
        (spec.geo.width - spec.border_radius ≤ pt.x ∧ pt.x ≤ spec.geo.width) ∧
          (0 ≤ pt.y ∧ pt.y ≤ spec.border_radius)) ∧
      (CurveSubSurf.contains_point (BorderSubSurf.subspecs spec).bottom_left pt = true →
        (0 ≤ pt.x ∧ pt.x ≤ spec.border_radius) ∧
          (spec.geo.height - spec.border_radius ≤ pt.y ∧ pt.y ≤ spec.geo.height)) ∧
      (CurveSubSurf.contains_point (BorderSubSurf.subspecs spec).bottom_right pt = true →
        (spec.geo.width - spec.border_radius ≤ pt.x ∧ pt.x ≤ spec.geo.width) ∧
          (spec.geo.height - spec.border_radius ≤ pt.y ∧ pt.y ≤ spec.geo.height)) := by
  refine ⟨?_, ?_, ?_, ?_⟩
  · intro h
    obtain ⟨⟨h0, hd⟩, -, hy, hx⟩ := (BorderSubSurf.top_left_contains_iff spec pt).mp h
    obtain ⟨⟨hx1, hx2⟩, hy1, hy2⟩ := abs_bounds_of_sq_add_sq_le h0 hd
    refine ⟨⟨?_, ?_⟩, ?_, ?_⟩ <;> omega
  · intro h
    obtain ⟨⟨h0, hd⟩, -, hy, hx⟩ := (BorderSubSurf.top_right_contains_iff spec pt).mp h
    obtain ⟨⟨hx1, hx2⟩, hy1, hy2⟩ := abs_bounds_of_sq_add_sq_le h0 hd
    refine ⟨⟨?_, ?_⟩, ?_, ?_⟩ <;> omega
  · intro h
    obtain ⟨⟨h0, hd⟩, -, hy, hx⟩ := (BorderSubSurf.bottom_left_contains_iff spec pt).mp h
    obtain ⟨⟨hx1, hx2⟩, hy1, hy2⟩ := abs_bounds_of_sq_add_sq_le h0 hd
    refine ⟨⟨?_, ?_⟩, ?_, ?_⟩ <;> omega
  · intro h
    obtain ⟨⟨h0, hd⟩, -, hy, hx, -⟩ := (BorderSubSurf.bottom_right_contains_iff spec pt).mp h
    obtain ⟨⟨hx1, hx2⟩, hy1, hy2⟩ := abs_bounds_of_sq_add_sq_le h0 hd
    refine ⟨⟨?_, ?_⟩, ?_, ?_⟩ <;> omega

/-- Witness of C5: on the 10 x 10 frame with radius 2 the top-left sector accepts `(1, 1)`,
which lies in the square `[0, 2] x [0, 2]`. -/
theorem BorderSubSurf.sector_in_corner_square_witness :
    (0 : Int) ≤ BorderSubSurf.frame10.border_radius ∧
      CurveSubSurf.contains_point (BorderSubSurf.subspecs BorderSubSurf.frame10).top_left
        ⟨1, 1⟩ = true ∧
      (((0 : Int) ≤ 1 ∧ (1 : Int) ≤ 2) ∧ ((0 : Int) ≤ 1 ∧ (1 : Int) ≤ 2)) :=
  ⟨by decide,
    (BorderSubSurf.top_left_contains_iff BorderSubSurf.frame10 ⟨1, 1⟩).mpr (by decide),
    (BorderSubSurf.sector_in_corner_square BorderSubSurf.frame10 ⟨1, 1⟩ (by decide)).1
      ((BorderSubSurf.top_left_contains_iff BorderSubSurf.frame10 ⟨1, 1⟩).mpr (by decide))⟩

/-! ## C6: edge rectangles and corner sectors meet on a line only -/

/-- C6, as stated, fails: on the 10 x 10 frame with border width 1 and radius 2, which meets
`0 < bw ≤ r`, `w ≥ 2r` and `h ≥ 2r`, the point `(2, 0)` is accepted by
`RectSubSurf::contains_point` for the top rectangle and by `CurveSubSurf::contains_point` for
the top-left sector. -/
theorem BorderSubSurf.edge_sector_overlap_counterexample :
    (0 < BorderSubSurf.frame10.border_width ∧
      BorderSubSurf.frame10.border_width ≤ BorderSubSurf.frame10.border_radius ∧
      2 * BorderSubSurf.frame10.border_radius ≤ BorderSubSurf.frame10.geo.width ∧
      2 * BorderSubSurf.frame10.border_radius ≤ BorderSubSurf.frame10.geo.height) ∧
    RectSubSurf.contains_point (BorderSubSurf.subspecs BorderSubSurf.frame10).top ⟨2, 0⟩
      = true ∧
    CurveSubSurf.contains_point (BorderSubSurf.subspecs BorderSubSurf.frame10).top_left ⟨2, 0⟩
      = true :=
  ⟨by decide, by decide,
    (BorderSubSurf.top_left_contains_iff BorderSubSurf.frame10 ⟨2, 0⟩).mpr (by decide)⟩

/-- C6, amended: for every border spec with `0 < bw ≤ r`, `w ≥ 2r` and `h ≥ 2r`, a point
accepted by `RectSubSurf::contains_point` for an edge rectangle and by
`CurveSubSurf::contains_point` for a corner sector lies in the row or the column of the centre
of that sector, which happens for the top-left and bottom-left sectors only: the top-right and
bottom-right sectors share no point with an edge rectangle. -/
theorem BorderSubSurf.edge_sector_overlap_on_axis (spec : BorderSubSurf.Spec) (pt : wf.point_t)
    (_hbw : 0 < spec.border_width) (_hle : spec.border_width ≤ spec.border_radius)
    (_hw : 2 * spec.border_radius ≤ spec.geo.width)
    (_hh : 2 * spec.border_radius ≤ spec.geo.height)
    (e : RectSubSurf.Spec)
    (he : e ∈ [(BorderSubSurf.subspecs spec).left, (BorderSubSurf.subspecs spec).right,
      (BorderSubSurf.subspecs spec).top, (BorderSubSurf.subspecs spec).bottom])
    (hpt : RectSubSurf.contains_point e pt = true) :
    (CurveSubSurf.contains_point (BorderSubSurf.subspecs spec).top_left pt = true →
        pt.x = (BorderSubSurf.subspecs spec).top_left.origin.x ∨
          pt.y = (BorderSubSurf.subspecs spec).top_left.origin.y) ∧
      (CurveSubSurf.contains_point (BorderSubSurf.subspecs spec).bottom_left pt = true →
        pt.x = (BorderSubSurf.subspecs spec).bottom_left.origin.x ∨
          pt.y = (BorderSubSurf.subspecs spec).bottom_left.origin.y) ∧
      CurveSubSurf.contains_point (BorderSubSurf.subspecs spec).top_right pt = false ∧
      CurveSubSurf.contains_point (BorderSubSurf.subspecs spec).bottom_right pt = false := by
  rw [RectSubSurf.rect_contains_point_iff] at hpt
  have htr : CurveSubSurf.contains_point (BorderSubSurf.subspecs spec).top_right pt = true →
      spec.geo.width - spec.border_radius ≤ pt.x ∧ pt.y < spec.border_radius := fun h =>
    have h2 := ((BorderSubSurf.top_right_contains_iff spec pt).mp h).2.2
    ⟨h2.2, h2.1⟩
  have hbr : CurveSubSurf.contains_point (BorderSubSurf.subspecs spec).bottom_right pt = true →
      spec.geo.width - spec.border_radius ≤ pt.x ∧ spec.geo.height - spec.border_radius ≤ pt.y :=
    fun h =>
    have h2 := ((BorderSubSurf.bottom_right_contains_iff spec pt).mp h).2.2
    ⟨h2.2.1, h2.1⟩
  have htl : CurveSubSurf.contains_point (BorderSubSurf.subspecs spec).top_left pt = true →
      pt.x ≤ spec.border_radius ∧ pt.y ≤ spec.border_radius := fun h =>
    have h2 := ((BorderSubSurf.top_left_contains_iff spec pt).mp h).2.2
    ⟨h2.2, h2.1⟩
  have hbl : CurveSubSurf.contains_point (BorderSubSurf.subspecs spec).bottom_left pt = true →
      pt.x ≤ spec.border_radius ∧ spec.geo.height - spec.border_radius ≤ pt.y := fun h =>
    have h2 := ((BorderSubSurf.bottom_left_contains_iff spec pt).mp h).2.2
    ⟨h2.2, h2.1⟩
  simp only [List.mem_cons, List.mem_singleton, List.not_mem_nil, or_false] at he
  rcases he with rfl | rfl | rfl | rfl <;> simp only [BorderSubSurf.subspecs] at hpt <;>
    refine ⟨fun h => ?_, fun h => ?_, ?_, ?_⟩ <;>
    first
    | (have h2 := htl h; simp only [BorderSubSurf.subspecs]; omega)
    | (have h2 := hbl h; simp only [BorderSubSurf.subspecs]; omega)
    | (apply Bool.eq_false_iff.mpr; intro hc; have h2 := htr hc; omega)
    | (apply Bool.eq_false_iff.mpr; intro hc; have h2 := hbr hc; omega)

/-- Witness of C6, amended: on the 10 x 10 frame the point `(2, 0)` of the top rectangle and
of the top-left sector lies in the column `x = 2` of the centre of that sector. -/
theorem BorderSubSurf.edge_sector_overlap_on_axis_witness :
    RectSubSurf.contains_point (BorderSubSurf.subspecs BorderSubSurf.frame10).top ⟨2, 0⟩
      = true ∧
    CurveSubSurf.contains_point (BorderSubSurf.subspecs BorderSubSurf.frame10).top_left ⟨2, 0⟩
      = true ∧
    ((2 : Int) = (BorderSubSurf.subspecs BorderSubSurf.frame10).top_left.origin.x ∨
      (0 : Int) = (BorderSubSurf.subspecs BorderSubSurf.frame10).top_left.origin.y) :=
  ⟨by decide,
    (BorderSubSurf.top_left_contains_iff BorderSubSurf.frame10 ⟨2, 0⟩).mpr (by decide),
    (BorderSubSurf.edge_sector_overlap_on_axis BorderSubSurf.frame10 ⟨2, 0⟩ (by decide)
      (by decide) (by decide) (by decide)
      (BorderSubSurf.subspecs BorderSubSurf.frame10).top (by simp) (by decide)).1
      ((BorderSubSurf.top_left_contains_iff BorderSubSurf.frame10 ⟨2, 0⟩).mpr (by decide))⟩

/-! ## C7, C8: active-state propagation -/

theorem DecoTree.run_append (t : DecoTree) (xs ys : List Notification) :
    t.run (xs ++ ys) = (t.run xs).run ys := by
  simp [DecoTree.run, List.foldl_append]

theorem DecoTree.is_child_active_deliver_set_active (t : DecoTree) (n P : Node) (v : Bool) :
    (t.deliver (Notification.on_set_active n v)).is_child_active P = t.is_child_active P := by
  unfold DecoTree.is_child_active DecoTree.deliver
  by_cases h : P = n
  · subst h
    simp only [Function.update_same]
    cases t.deco P <;> rfl
  · simp only [Function.update_noteq h]

theorem DecoTree.is_child_active_deliver_set_child_active (t : DecoTree) (n P : Node)
    (v : Bool) :
    (t.deliver (Notification.on_set_child_active n v)).is_child_active P =
      if P = n then (t.is_child_active P).map (fun _ => v) else t.is_child_active P := by
  unfold DecoTree.is_child_active DecoTree.deliver
  by_cases h : P = n
  · subst h
    simp only [Function.update_same, if_true]
    cases t.deco P <;> rfl
  · simp only [Function.update_noteq h, if_neg h]

/-- The flag of `P` after the loop over the parents of `n`: set to `active` when `P` is a
decorated container above `n`, untouched otherwise. -/
theorem DecoTree.is_child_active_notify_parents (t0 : DecoTree) (active : Bool) (P : Node) :
    ∀ (n : Node) (t : DecoTree),
      (t.run (notify_parents t0 active n)).is_child_active P =
        if P ∈ n.ancestors ∧ (t0.deco P).isSome = true
        then (t.is_child_active P).map (fun _ => active) else t.is_child_active P := by
  intro n
  induction n with
  | nil =>
    intro t
    simp [notify_parents, Node.ancestors, DecoTree.run]
  | cons i p ih =>
    intro t
    simp only [notify_parents, Node.ancestors, DecoTree.run_append, ih, List.mem_cons]
    by_cases hp : (t0.deco p).isSome = true
    · simp only [hp, if_true, DecoTree.run, List.foldl_cons, List.foldl_nil,
        DecoTree.is_child_active_deliver_set_child_active]
      by_cases hP : P = p
      · subst hP
        simp only [hp, true_or, and_true, if_true]
        cases t.is_child_active P <;> simp
      · simp only [hP, false_or, if_false]
    · have hp2 : (t0.deco p).isSome = false := by simpa using hp
      simp only [hp2, Bool.false_eq_true, if_false, DecoTree.run, List.foldl_nil]
      by_cases hP : P = p
      · subst hP
        simp [hp2]
      · simp only [hP, false_or]

theorem DecoTree.is_child_active_notify_tree (t0 t : DecoTree) (n : Node) (active : Bool)
    (P : Node) :
    (t.run (notify_tree t0 n active)).is_child_active P =
      if P ∈ n.ancestors ∧ (t0.deco P).isSome = true
      then (t.is_child_active P).map (fun _ => active) else t.is_child_active P := by
  unfold notify_tree
  rw [DecoTree.run_append, DecoTree.is_child_active_notify_parents]
  have h : (t.run (if t0.is_split n = true then
      (if (t0.deco n).isSome = true then [Notification.on_set_active n active] else [])
      else [])).is_child_active P = t.is_child_active P := by
    split_ifs <;>
      simp [DecoTree.run, DecoTree.is_child_active_deliver_set_active]
  rw [h]

theorem DecoTree.is_child_active_of_not_isSome (t : DecoTree) (P : Node)
    (h : ¬ (t.deco P).isSome = true) : t.is_child_active P = none := by
  unfold DecoTree.is_child_active
  cases hd : t.deco P with
  | none => rfl
  | some d => simp [hd] at h

theorem DecoTree.is_child_active_after_handler (t : DecoTree) (A B : Node) (hAB : A ≠ B)
    (P : Node) :
    (t.run (on_active_node_changed t (some A) (some B))).is_child_active P =
      if P ∈ B.ancestors ∧ (t.deco P).isSome = true then
        (t.is_child_active P).map (fun _ => true)
      else if P ∈ A.ancestors ∧ (t.deco P).isSome = true then
        (t.is_child_active P).map (fun _ => false)
      else t.is_child_active P := by
  have hne : (some B : Option Node) ≠ some A := fun h => hAB (Option.some.inj h).symm
  simp only [on_active_node_changed, unmark_phase, mark_phase, hne, ne_eq, not_false_eq_true,
    if_true, DecoTree.run_append, DecoTree.is_child_active_notify_tree]
  split_ifs <;> first | rfl | (cases t.is_child_active P <;> rfl)

/-- C7: for every tree and distinct nodes `A` (old active) and `B` (new active), after
`on_active_node_changed` every container decoration above `A` that is not above `B` reports
`is_child_active = false`, and every container decoration above `B` reports `true`. -/
theorem on_active_node_changed_propagates (t : DecoTree) (A B : Node) (hAB : A ≠ B)
    (P : Node) :
    (P ∈ A.ancestors → P ∉ B.ancestors →
      (t.run (on_active_node_changed t (some A) (some B))).is_child_active P =
        (t.is_child_active P).map fun _ => false) ∧
    (P ∈ B.ancestors →
      (t.run (on_active_node_changed t (some A) (some B))).is_child_active P =
        (t.is_child_active P).map fun _ => true) := by
  rw [DecoTree.is_child_active_after_handler t A B hAB P]
  by_cases hs : (t.deco P).isSome = true
  · refine ⟨fun hA hB => ?_, fun hB => ?_⟩
    · simp only [hB, hA, hs, false_and, true_and, if_false, if_true]
    · simp only [hB, hs, true_and, if_true]
  · have hn := DecoTree.is_child_active_of_not_isSome t P hs
    have hs2 : (t.deco P).isSome = false := by simpa using hs
    simp only [hs2, Bool.false_eq_true, and_false, if_false, hn, Option.map_none']
    exact ⟨fun _ _ => trivial, fun _ => trivial⟩

/-- Witness of C7: in the sample tree the active node moves from `[0, 0]` to `[1]`; the
container `[0]`, above `[0, 0]` only, then reports `false`. -/
theorem on_active_node_changed_propagates_witness :
    ([0, 0] : Node) ≠ [1] ∧ ([0] : Node) ∈ Node.ancestors [0, 0] ∧
      ([0] : Node) ∉ Node.ancestors [1] ∧
      (DecoTree.sample.run
        (on_active_node_changed DecoTree.sample (some [0, 0]) (some [1]))).is_child_active [0]
        = some false :=
  ⟨by decide, by decide, by decide,
    (on_active_node_changed_propagates DecoTree.sample [0, 0] [1] (by decide) [0]).1
      (by decide) (by decide)⟩

/-- C8, as stated, fails: in the sample tree the root container `[]` is above both `[0, 0]`
and `[1]`; when the active node moves from `[0, 0]` to `[1]` it is notified
`on_set_child_active (false)` and reports `false` once the unmark phase is over. -/
theorem common_ancestor_toggles_counterexample :
    ([0, 0] : Node) ≠ [1] ∧ ([] : Node) ∈ Node.ancestors [0, 0] ∧
      ([] : Node) ∈ Node.ancestors [1] ∧
      DecoTree.sample.is_child_active [] = some true ∧
      on_active_node_changed DecoTree.sample (some [0, 0]) (some [1]) =
        [Notification.on_set_child_active [0] false, Notification.on_set_child_active [] false,
          Notification.on_set_child_active [] true] ∧
      (DecoTree.sample.run
        ((on_active_node_changed DecoTree.sample (some [0, 0]) (some [1])).take 2)).is_child_active
          [] = some false := by
  refine ⟨by decide, by decide, by decide, by decide, by decide, by decide⟩

theorem mem_notify_parents (t : DecoTree) (active : Bool) (P : Node) :
    ∀ n : Node, P ∈ n.ancestors → (t.deco P).isSome = true →
      Notification.on_set_child_active P active ∈ notify_parents t active n := by
  intro n
  induction n with
  | nil =>
    intro h
    simp [Node.ancestors] at h
  | cons i p ih =>
    intro h hd
    simp only [Node.ancestors, List.mem_cons] at h
    simp only [notify_parents, List.mem_append]
    rcases h with rfl | h
    · left
      simp [hd]
    · right
      exact ih h hd

theorem DecoTree.map_is_child_active_of_isSome (t : DecoTree) (P : Node) (v : Bool)
    (h : (t.deco P).isSome = true) : (t.is_child_active P).map (fun _ => v) = some v := by
  unfold DecoTree.is_child_active
  cases hd : t.deco P with
  | none => simp [hd] at h
  | some d => rfl

/-- C8, amended: for every tree and distinct nodes `A` and `B`, a container decoration above
both `A` and `B` is notified `on_set_child_active (false)` in the unmark phase and
`on_set_child_active (true)` in the mark phase; it reports `false` when the unmark phase is
over and `true` when the handler returns. -/
theorem common_ancestor_unmarked_then_marked (t : DecoTree) (A B : Node) (hAB : A ≠ B)
    (P : Node) (hA : P ∈ A.ancestors) (hB : P ∈ B.ancestors)
    (hd : (t.deco P).isSome = true) :
    Notification.on_set_child_active P false ∈ unmark_phase t (some A) (some B) ∧
      Notification.on_set_child_active P true ∈ mark_phase t (some B) ∧
      (t.run (unmark_phase t (some A) (some B))).is_child_active P = some false ∧
      (t.run (on_active_node_changed t (some A) (some B))).is_child_active P = some true := by
  have hne : (some B : Option Node) ≠ some A := fun h => hAB (Option.some.inj h).symm
  refine ⟨?_, ?_, ?_, ?_⟩
  · simp only [unmark_phase, hne, ne_eq, not_false_eq_true, if_true, notify_tree,
      List.mem_append]
    exact Or.inr (mem_notify_parents t false P A hA hd)
  · simp only [mark_phase, notify_tree, List.mem_append]
    exact Or.inr (mem_notify_parents t true P B hB hd)
  · simp only [unmark_phase, hne, ne_eq, not_false_eq_true, if_true,
      DecoTree.is_child_active_notify_tree, hA, hd, and_self]
    exact DecoTree.map_is_child_active_of_isSome t P false hd
  · rw [DecoTree.is_child_active_after_handler t A B hAB P]
    simp only [hB, hd, and_self, if_true]
    exact DecoTree.map_is_child_active_of_isSome t P true hd

/-- Witness of C8, amended: the root container of the sample tree, above both `[0, 0]` and
`[1]`, reports `false` after the unmark phase and `true` after the handler. -/
theorem common_ancestor_unmarked_then_marked_witness :
    ([0, 0] : Node) ≠ [1] ∧ ([] : Node) ∈ Node.ancestors [0, 0] ∧
      ([] : Node) ∈ Node.ancestors [1] ∧ (DecoTree.sample.deco []).isSome = true ∧
      (Notification.on_set_child_active [] false ∈
          unmark_phase DecoTree.sample (some [0, 0]) (some [1]) ∧
        Notification.on_set_child_active [] true ∈ mark_phase DecoTree.sample (some [1]) ∧
        (DecoTree.sample.run
          (unmark_phase DecoTree.sample (some [0, 0]) (some [1]))).is_child_active [] =
            some false ∧
        (DecoTree.sample.run
          (on_active_node_changed DecoTree.sample (some [0, 0]) (some [1]))).is_child_active []
            = some true) :=
  ⟨by decide, by decide, by decide, by decide,
    common_ancestor_unmarked_then_marked DecoTree.sample [0, 0] [1] (by decide) []
      (by decide) (by decide) (by decide)⟩

/-! ## C9: corner propagation -/

theorem set_outer_corners_children_length (corners : Corners) :
    ∀ (cs : List CornerTree) (count i : Nat),
      (set_outer_corners_children cs count i corners).length = cs.length := by
  intro cs
  induction cs with
  | nil => intro count i; simp [set_outer_corners_children]
  | cons c rest ih => intro count i; simp [set_outer_corners_children, ih]

theorem set_outer_corners_children_getElem? (corners : Corners) :
    ∀ (cs : List CornerTree) (count i j : Nat),
      (set_outer_corners_children cs count i corners)[j]? =
        (cs[j]?).map fun c => set_outer_corners c (child_corners count (i + j) corners) := by
  intro cs
  induction cs with
  | nil => intro count i j; simp [set_outer_corners_children]
  | cons c rest ih =>
    intro count i j
    cases j with
    | zero => simp [set_outer_corners_children]
    | succ k =>
      simp only [set_outer_corners_children, List.getElem?_cons_succ, ih]
      have e : i + 1 + k = i + (k + 1) := by omega
      rw [e]

/-- C9: `set_outer_corners (root, mask)` assigns `mask` to the decoration of the root and hands
child `i` of `n` children the full mask when `n = 1`, and otherwise the left-side bits
`mask & (TOP_LEFT | BOTTOM_LEFT)` when it is the first child, the right-side bits
`mask & (TOP_RIGHT | BOTTOM_RIGHT)` when it is the last, and `NONE` in between; `ALL` on
children `[L, M, R]` gives `TOP_LEFT | BOTTOM_LEFT`, `NONE`, `TOP_RIGHT | BOTTOM_RIGHT`. -/
theorem set_outer_corners_rule (d : Option Corners) (cs : List CornerTree) (mask : Corners) :
    (set_outer_corners (CornerTree.node d cs) mask).deco = d.map (fun _ => mask) ∧
      (set_outer_corners (CornerTree.node d cs) mask).children.length = cs.length ∧
      (∀ (i : Nat) (c : CornerTree), cs[i]? = some c →
        (set_outer_corners (CornerTree.node d cs) mask).children[i]? =
          some (set_outer_corners c
            (if cs.length = 1 then mask
              else if i = 0 then mask &&& (Corner.TOP_LEFT ||| Corner.BOTTOM_LEFT)
              else if i + 1 = cs.length then mask &&& (Corner.TOP_RIGHT ||| Corner.BOTTOM_RIGHT)
              else Corner.NONE))) ∧
      (∀ L M R : CornerTree,
        set_outer_corners (CornerTree.node d [L, M, R]) Corner.ALL =
          CornerTree.node (d.map fun _ => Corner.ALL)
            [set_outer_corners L (Corner.TOP_LEFT ||| Corner.BOTTOM_LEFT),
              set_outer_corners M Corner.NONE,
              set_outer_corners R (Corner.TOP_RIGHT ||| Corner.BOTTOM_RIGHT)]) := by
  refine ⟨?_, ?_, ?_, ?_⟩
  · simp [set_outer_corners, CornerTree.deco]
  · simp [set_outer_corners, CornerTree.children, set_outer_corners_children_length]
  · intro i c hc
    simp only [set_outer_corners, CornerTree.children, set_outer_corners_children_getElem?, hc,
      Option.map_some', Nat.zero_add]
    rfl
  · intro L M R
    have e1 : child_corners 3 0 Corner.ALL = Corner.TOP_LEFT ||| Corner.BOTTOM_LEFT := by decide
    have e2 : child_corners 3 1 Corner.ALL = Corner.NONE := by decide
    have e3 : child_corners 3 2 Corner.ALL = Corner.TOP_RIGHT ||| Corner.BOTTOM_RIGHT := by
      decide
    simp only [set_outer_corners, set_outer_corners_children, List.length_cons, List.length_nil,
      Nat.zero_add, Nat.reduceAdd, e1, e2, e3]

/-- Witness of C9: `ALL` pushed into a decorated container with three decorated views leaves
`LEFT = 5` on the first, `NONE` on the middle one and `RIGHT = 10` on the last. -/
theorem set_outer_corners_rule_witness :
    set_outer_corners
        (CornerTree.node (some 0)
          [CornerTree.node (some 0) [], CornerTree.node (some 0) [], CornerTree.node (some 0) []])
        Corner.ALL =
      CornerTree.node (some 15)
        [CornerTree.node (some 5) [], CornerTree.node (some 0) [], CornerTree.node (some 10) []] :=
  ((set_outer_corners_rule (some 0)
    [CornerTree.node (some 0) [], CornerTree.node (some 0) [], CornerTree.node (some 0) []]
    Corner.ALL).2.2.2
    (CornerTree.node (some 0) []) (CornerTree.node (some 0) []) (CornerTree.node (some 0) [])).trans
    (by
      simp only [set_outer_corners, set_outer_corners_children, Option.map_some']
      rfl)

/-! ## C10: tab entries follow the children -/

theorem emplace_back_loop_length :
    ∀ (count : Nat) (tabs : List TitleBarSubSurf),
      (emplace_back_loop count tabs).length = tabs.length + count := by
  intro count
  induction count with
  | zero => intro tabs; rfl
  | succ k ih =>
    intro tabs
    simp only [emplace_back_loop, ih, List.length_append, List.length_singleton]
    omega

theorem emplace_back_loop_labels :
    ∀ (count : Nat) (tabs : List TitleBarSubSurf), (∀ e ∈ tabs, e.label = none) →
      ∀ e ∈ emplace_back_loop count tabs, e.label = none := by
  intro count
  induction count with
  | zero => intro tabs h; exact h
  | succ k ih =>
    intro tabs h
    simp only [emplace_back_loop]
    apply ih
    intro e he
    simp only [List.mem_append, List.mem_singleton] at he
    rcases he with he | rfl
    · exact h e he
    · rfl

/-- After `cache_textures`, with as many entries as children, entry `i` holds the label of
child `i`. -/
theorem SplitDecoration.cache_textures_exact (d : SplitDecoration)
    (h : d.tab_surfaces.length = d.children.length) :
    d.cache_textures.children = d.children ∧
      d.cache_textures.tab_surfaces = d.children.map fun c => { label := some c } := by
  refine ⟨rfl, ?_⟩
  simp only [SplitDecoration.cache_textures, h]
  apply List.ext_getElem?
  intro i
  simp only [List.getElem?_map, List.getElem?_range]
  by_cases hi : i < d.children.length
  · simp [List.getElem?_range hi, List.getElem?_eq_getElem hi]
  · have h1 : (List.range d.children.length)[i]? = none := by
      simp [List.getElem?_eq_none_iff, not_lt.mp hi]
    have h2 : d.children[i]? = none := by
      simp [List.getElem?_eq_none_iff, not_lt.mp hi]
    simp [h1, h2]

theorem SplitDecoration.entries_match_of_exact (d : SplitDecoration)
    (h : d.tab_surfaces = d.children.map fun c => { label := some c }) : d.entries_match := by
  intro i e he
  right
  rw [h, List.getElem?_map] at he
  cases hc : d.children[i]? with
  | none => simp [hc] at he
  | some c =>
    simp only [hc, Option.map_some', Option.some.injEq] at he
    rw [← he]

/-- One handled signal keeps the tab entries aligned with the children; after a handler that
ends in `cache_textures` every entry holds the label of its child. -/
theorem SplitDecoration.handle_preserves (d d1 : SplitDecoration) (s : ChildSignal)
    (hlen : d.tab_surfaces.length = d.children.length) (hm : d.entries_match)
    (h : d.handle s = some d1) :
    d1.tab_surfaces.length = d1.children.length ∧ d1.entries_match ∧
      ((∀ i, s ≠ ChildSignal.child_removed i) →
        d1.tab_surfaces = d1.children.map fun c => { label := some c }) := by
  have hexact : ∀ d2 : SplitDecoration, d2.tab_surfaces.length = d2.children.length →
      d2.cache_textures.tab_surfaces.length = d2.cache_textures.children.length ∧
        d2.cache_textures.entries_match ∧
        d2.cache_textures.tab_surfaces =
          d2.cache_textures.children.map fun c => { label := some c } := by
    intro d2 h2
    obtain ⟨hc, ht⟩ := SplitDecoration.cache_textures_exact d2 h2
    have e : d2.cache_textures.tab_surfaces =
        d2.cache_textures.children.map fun c => { label := some c } := by rw [hc, ht]
    refine ⟨?_, SplitDecoration.entries_match_of_exact _ e, e⟩
    rw [e, List.length_map]
  cases s with
  | child_inserted index node =>
    simp only [SplitDecoration.handle] at h
    split_ifs at h with hi
    simp only [Option.some.injEq] at h
    subst h
    have h2 := hexact
      { children := d.children.insertIdx index node,
        tab_surfaces := d.tab_surfaces.insertIdx index {} }
      (by
        simp only []
        rw [List.length_insertIdx _ _ (by omega), List.length_insertIdx _ _ hi, hlen])
    exact ⟨h2.1, h2.2.1, fun _ => h2.2.2⟩
  | child_removed index =>
    simp only [SplitDecoration.handle] at h
    cases hc : d.children[index]? with
    | none => simp [hc] at h
    | some node =>
      simp only [hc, Option.some.injEq] at h
      subst h
      obtain ⟨hi, -⟩ := List.getElem?_eq_some.mp hc
      refine ⟨?_, ?_, fun hne => absurd rfl (hne index)⟩
      · simp only [SplitDecoration.on_child_removed_impl, List.length_eraseIdx, hlen]
      · intro j e he
        simp only [SplitDecoration.on_child_removed_impl, List.getElem?_eraseIdx] at he ⊢
        by_cases hj : j < index
        · simp only [hj, if_true] at he ⊢
          exact hm j e he
        · simp only [hj, if_false] at he ⊢
          exact hm (j + 1) e he
  | child_swapped index new_node =>
    simp only [SplitDecoration.handle] at h
    cases hc : d.children[index]? with
    | none => simp [hc] at h
    | some old_node =>
      simp only [hc, Option.some.injEq] at h
      subst h
      have h2 := hexact
        { children := d.children.set index new_node,
          tab_surfaces := d.tab_surfaces }
        (by simp only [List.length_set, hlen])
      exact ⟨h2.1, h2.2.1, fun _ => h2.2.2⟩
  | children_swapped i j =>
    simp only [SplitDecoration.handle] at h
    cases hi : d.children[i]? with
    | none => simp [hi] at h
    | some a =>
      cases hj : d.children[j]? with
      | none => simp [hi, hj] at h
      | some b =>
        simp only [hi, hj, Option.some.injEq] at h
        subst h
        have h2 := hexact
          { children := (d.children.set i b).set j a,
            tab_surfaces := d.tab_surfaces }
          (by simp only [List.length_set, hlen])
        exact ⟨h2.1, h2.2.1, fun _ => h2.2.2⟩

theorem SplitDecoration.handle_all_preserves :
    ∀ (signals : List ChildSignal) (d d1 : SplitDecoration),
      d.tab_surfaces.length = d.children.length → d.entries_match →
      d.handle_all signals = some d1 →
      d1.tab_surfaces.length = d1.children.length ∧ d1.entries_match ∧
        (∀ s, signals.getLast? = some s → (∀ i, s ≠ ChildSignal.child_removed i) →
          d1.tab_surfaces = d1.children.map fun c => { label := some c }) := by
  intro signals
  induction signals with
  | nil =>
    intro d d1 hlen hm h
    simp only [SplitDecoration.handle_all, Option.some.injEq] at h
    subst h
    exact ⟨hlen, hm, fun s hs => by simp at hs⟩
  | cons s rest ih =>
    intro d d1 hlen hm h
    simp only [SplitDecoration.handle_all] at h
    cases hd : d.handle s with
    | none => simp [hd] at h
    | some d2 =>
      simp only [hd, Option.some_bind] at h
      obtain ⟨h1, h2, h3⟩ := SplitDecoration.handle_preserves d d2 s hlen hm hd
      cases rest with
      | nil =>
        simp only [SplitDecoration.handle_all, Option.some.injEq] at h
        subst h
        refine ⟨h1, h2, fun s2 hs hne => ?_⟩
        simp only [List.getLast?_singleton, Option.some.injEq] at hs
        subst hs
        exact h3 hne
      | cons s2 rest2 =>
        obtain ⟨k1, k2, k3⟩ := ih d2 d1 h1 h2 h
        refine ⟨k1, k2, fun s3 hs hne => ?_⟩
        rw [List.getLast?_cons_cons] at hs
        exact k3 s3 hs hne

/-- C10: `SplitDecoration::tab_surfaces` has exactly `get_children_count ()` entries after
construction, and after every sequence of child-inserted, child-removed, child-swapped and
children-swapped signals the number of tab entries equals the number of children and entry
`i` corresponds to child `i`: its label, once rendered, is that of child `i`, and it is
rendered from child `i` whenever the last handler ended in `cache_textures ()`. -/
theorem SplitDecoration.tab_surfaces_follow_children (children : List NodeRef)
    (signals : List ChildSignal) (d : SplitDecoration)
    (h : (SplitDecoration.new children).handle_all signals = some d) :
    (SplitDecoration.new children).tab_surfaces.length = children.length ∧
      d.tab_surfaces.length = d.children.length ∧ d.entries_match ∧
      (∀ s, signals.getLast? = some s → (∀ i, s ≠ ChildSignal.child_removed i) →
        d.tab_surfaces = d.children.map fun c => { label := some c }) := by
  have hlen : (SplitDecoration.new children).tab_surfaces.length = children.length := by
    simp [SplitDecoration.new, emplace_back_loop_length]
  have hm : (SplitDecoration.new children).entries_match := by
    intro i e he
    left
    have hmem : e ∈ emplace_back_loop children.length [] := by
      obtain ⟨hi, rfl⟩ := List.getElem?_eq_some.mp he
      exact List.getElem_mem _
    exact emplace_back_loop_labels children.length [] (fun e he => by simp at he) e hmem
  exact ⟨hlen, SplitDecoration.handle_all_preserves signals _ d hlen hm h⟩

/-- Witness of C10: a container with the children `7, 8, 9` gets `5` inserted at position 1,
loses its first child, has its last child swapped for `4` and its first two children
exchanged; the three tab entries then hold the labels of `8, 5, 4`, in this order. -/
theorem SplitDecoration.tab_surfaces_follow_children_witness :
    (SplitDecoration.new [7, 8, 9]).handle_all
        [ChildSignal.child_inserted 1 5, ChildSignal.child_removed 0,
          ChildSignal.child_swapped 2 4, ChildSignal.children_swapped 0 1] =
      some ⟨[8, 5, 4], [⟨some 8⟩, ⟨some 5⟩, ⟨some 4⟩]⟩ ∧
    (SplitDecoration.new [7, 8, 9]).tab_surfaces.length = 3 ∧
    ([⟨some 8⟩, ⟨some 5⟩, ⟨some 4⟩] : List TitleBarSubSurf).length
      = ([8, 5, 4] : List NodeRef).length :=
  ⟨by decide,
    (SplitDecoration.tab_surfaces_follow_children [7, 8, 9]
      [ChildSignal.child_inserted 1 5, ChildSignal.child_removed 0,
        ChildSignal.child_swapped 2 4, ChildSignal.children_swapped 0 1]
      ⟨[8, 5, 4], [⟨some 8⟩, ⟨some 5⟩, ⟨some 4⟩]⟩ (by decide)).1,
    (SplitDecoration.tab_surfaces_follow_children [7, 8, 9]
      [ChildSignal.child_inserted 1 5, ChildSignal.child_removed 0,
        ChildSignal.child_swapped 2 4, ChildSignal.children_swapped 0 1]
      ⟨[8, 5, 4], [⟨some 8⟩, ⟨some 5⟩, ⟨some 4⟩]⟩ (by decide)).2.1⟩

/-! ## C11: visibility of the tab bar -/

theorem TabBarView.on_split_type_changed_eq (is_stack : Bool) (v : TabBarView) :
    v.on_split_type_changed is_stack =
      { tabs := v.tabs,
        visible := is_stack,
        set_visible_calls := v.set_visible_calls ++ (if v.visible = is_stack then [] else [is_stack]),
        refresh_size_calls := v.refresh_size_calls + 1,
        set_outer_corners_calls := v.set_outer_corners_calls + 1 } := by
  obtain ⟨tabs, vis, calls, r, c⟩ := v
  cases is_stack <;> cases vis <;>
    simp [TabBarView.on_split_type_changed, TabBarView.is_visible, TabBarView.set_visible,
      TabBarView.refresh_size, TabBarView.set_outer_corners]

/-- C11: whatever the visibility before, after `on_split_type_changed` (also when emitted by
`initialize ()`) the decoration is visible exactly when `node->is_stack ()` holds, and
`set_visible` is called only when the visibility has to change; the tab entries are left as
they are. A side-by-side container with 3 children is hidden after `initialize ()` and becomes
visible, with its 3 tab entries, when it is switched to tabbed. -/
theorem TabBarView.visible_iff_is_stack (is_stack : Bool) (v : TabBarView)
    (c1 c2 c3 : NodeRef) (visible0 : Bool) :
    ((v.on_split_type_changed is_stack).visible = is_stack ∧
      (v.on_split_type_changed is_stack).set_visible_calls =
        v.set_visible_calls ++ (if v.visible = is_stack then [] else [is_stack]) ∧
      (v.on_split_type_changed is_stack).tabs = v.tabs) ∧
    TabBarView.initialize is_stack v = v.on_split_type_changed is_stack ∧
    ( TabBarView.initialize false (TabBarView.new [c1, c2, c3] visible0)).visible = false ∧
    (( TabBarView.initialize false
      (TabBarView.new [c1, c2, c3] visible0)).on_split_type_changed true).visible = true ∧
    (( TabBarView.initialize false
      (TabBarView.new [c1, c2, c3] visible0)).on_split_type_changed true).tabs.tab_surfaces.length
      = 3 ∧
    (( TabBarView.initialize false
      (TabBarView.new [c1, c2, c3] visible0)).on_split_type_changed true).tabs.children
      = [c1, c2, c3] := by
  refine ⟨⟨?_, ?_, ?_⟩, rfl, ?_, ?_, ?_, ?_⟩
  · rw [TabBarView.on_split_type_changed_eq]
  · rw [TabBarView.on_split_type_changed_eq]
  · rw [TabBarView.on_split_type_changed_eq]
  · simp only [ TabBarView.initialize, TabBarView.on_split_type_changed_eq]
  · simp only [ TabBarView.initialize, TabBarView.on_split_type_changed_eq]
  · simp only [ TabBarView.initialize, TabBarView.on_split_type_changed_eq, TabBarView.new,
      SplitDecoration.new, emplace_back_loop_length]
    rfl
  · simp only [ TabBarView.initialize, TabBarView.on_split_type_changed_eq, TabBarView.new,
      SplitDecoration.new]

/-! ## C12: fullscreen and the surface of a window decoration -/

theorem ViewDecoration.on_fullscreen_eq (fullscreen : Bool) (d : ViewDecoration) :
    d.on_fullscreen fullscreen =
      { surface_held := fullscreen,
        calls := d.calls ++
          (if fullscreen = true ∧ d.is_hidden = false then [SurfaceCall.detach_surface]
            else if fullscreen = false ∧ d.is_hidden = true then [SurfaceCall.attach_surface]
            else []) } := by
  obtain ⟨held, calls⟩ := d
  cases fullscreen <;> cases held <;>
    simp [ViewDecoration.on_fullscreen, ViewDecoration.is_hidden,
      ViewDecoration.attach_surface, ViewDecoration.detach_surface]

theorem ViewDecoration.is_hidden_on_fullscreen_all :
    ∀ (events : List Bool) (d : ViewDecoration),
      (d.on_fullscreen_all events).is_hidden = events.getLast?.getD d.is_hidden := by
  intro events
  induction events with
  | nil => intro d; rfl
  | cons f rest ih =>
    intro d
    have e : d.on_fullscreen_all (f :: rest) = (d.on_fullscreen f).on_fullscreen_all rest := rfl
    rw [e, ih, ViewDecoration.on_fullscreen_eq]
    cases rest with
    | nil => rfl
    | cons g rest2 => simp [List.getLast?_cons_cons, List.getLast?_cons]

theorem ViewDecoration.on_fullscreen_all_true_of_hidden :
    ∀ (n : Nat) (d : ViewDecoration), d.is_hidden = true →
      d.on_fullscreen_all (List.replicate n true) = d := by
  intro n
  induction n with
  | zero => intro d _; rfl
  | succ k ih =>
    intro d hd
    have e : d.on_fullscreen_all (List.replicate (k + 1) true) =
        (d.on_fullscreen true).on_fullscreen_all (List.replicate k true) := rfl
    have e2 : d.on_fullscreen true = d := by
      obtain ⟨held, calls⟩ := d
      simp only [ViewDecoration.is_hidden] at hd
      subst hd
      rfl
    rw [e, e2, ih d hd]

/-- C12: a `ViewDecoration` is constructed attached-visible unless the view is fullscreen, then
attached-hidden; `on_fullscreen` calls `detach_surface` only when the view is fullscreen and the
decoration is not hidden, and `attach_surface` only when the view is not fullscreen and the
decoration is hidden; so `is_hidden ()` equals the fullscreen flag of the view after every
event, and a run of fullscreen-true events detaches the surface of a visible decoration once. -/
theorem ViewDecoration.fullscreen_state_machine (fullscreen0 : Bool) (events : List Bool)
    (d : ViewDecoration) (fullscreen : Bool) (n : Nat) :
    ((ViewDecoration.new fullscreen0).is_hidden = fullscreen0 ∧
      (ViewDecoration.new fullscreen0).calls =
        if fullscreen0 = true then [] else [SurfaceCall.attach_surface]) ∧
    (d.on_fullscreen fullscreen).calls = d.calls ++
      (if fullscreen = true ∧ d.is_hidden = false then [SurfaceCall.detach_surface]
        else if fullscreen = false ∧ d.is_hidden = true then [SurfaceCall.attach_surface]
        else []) ∧
    (d.on_fullscreen fullscreen).is_hidden = fullscreen ∧
    ((ViewDecoration.new fullscreen0).on_fullscreen_all events).is_hidden =
      events.getLast?.getD fullscreen0 ∧
    (d.on_fullscreen_all (List.replicate (n + 1) true)).calls =
      d.calls ++ (if d.is_hidden = true then [] else [SurfaceCall.detach_surface]) ∧
    ((ViewDecoration.new false).on_fullscreen_all (List.replicate (n + 1) true)).calls.count
      SurfaceCall.detach_surface = 1 := by
  have hrun : ∀ d : ViewDecoration,
      (d.on_fullscreen_all (List.replicate (n + 1) true)).calls =
        d.calls ++ (if d.is_hidden = true then [] else [SurfaceCall.detach_surface]) := by
    intro d
    have e : d.on_fullscreen_all (List.replicate (n + 1) true) =
        (d.on_fullscreen true).on_fullscreen_all (List.replicate n true) := rfl
    have h1 : (d.on_fullscreen true).is_hidden = true := by
      rw [ViewDecoration.on_fullscreen_eq]
      rfl
    rw [e, ViewDecoration.on_fullscreen_all_true_of_hidden n _ h1, ViewDecoration.on_fullscreen_eq]
    cases hd : d.is_hidden <;> simp
  refine ⟨⟨?_, ?_⟩, ?_, ?_, ?_, hrun d, ?_⟩
  · cases fullscreen0 <;> rfl
  · cases fullscreen0 <;> rfl
  · rw [ViewDecoration.on_fullscreen_eq]
  · rw [ViewDecoration.on_fullscreen_eq]
    rfl
  · rw [ViewDecoration.is_hidden_on_fullscreen_all]
    cases fullscreen0 <;> rfl
  · rw [hrun]
    decide

/-! ## C13: the destructor of a window decoration and its subscriptions -/

/-- C13, evaluated on the code: the destructor of `ViewDecoration` detaches the surface if it
is visible and unmaps it before it disconnects, but it disconnects `on_detached` from the
output, to which `on_detached` was never connected, instead of `on_swf_fini`; when the body of
the destructor is over, `on_swf_fini` is still connected to the output, so the pairs
disconnected are not the pairs connected. -/
theorem ViewDecoration.destructor_leaves_on_swf_fini (is_hidden : Bool) :
    ViewDecoration.subscriptions_after_destructor is_hidden =
        [(SignalSource.output, Connection.on_swf_fini)] ∧
      (SignalSource.output, Connection.on_swf_fini) ∈ ViewDecoration.constructor_connects ∧
      (SignalSource.output, Connection.on_swf_fini) ∉ ViewDecoration.destructor_disconnects ∧
      (SignalSource.output, Connection.on_detached) ∈ ViewDecoration.destructor_disconnects ∧
      (SignalSource.output, Connection.on_detached) ∉ ViewDecoration.constructor_connects ∧
      (ViewDecoration.constructor_connects.filter fun p =>
        decide (p ∉ ViewDecoration.destructor_disconnects)) =
        [(SignalSource.output, Connection.on_swf_fini)] ∧
      (ViewDecoration.destructor_steps false).take 3 =
        [TeardownStep.erase_data, TeardownStep.detach_surface, TeardownStep.unmap] ∧
      (ViewDecoration.destructor_steps true).take 2 =
        [TeardownStep.erase_data, TeardownStep.unmap] := by
  cases is_hidden <;> decide

/-! ## C14: finalisation runs once -/

theorem SwayfirePlugin.step_invariant (p : SwayfirePlugin) (e : PluginEvent)
    (h1 : p.has_finished = true → p.fini_connected = false)
    (h2 : p.log.count PluginAction.swf_fini = if p.has_finished = true then 1 else 0) :
    ∃ q, p.step e = some q ∧ (q.has_finished = true → q.fini_connected = false) ∧
      q.log.count PluginAction.swf_fini = if q.has_finished = true then 1 else 0 := by
  obtain ⟨fin, ic, fc, log⟩ := p
  simp only at h1 h2
  cases fin with
  | true =>
    have hfc : fc = false := h1 rfl
    subst hfc
    refine ⟨⟨true, ic, false, log⟩, ?_, fun _ => rfl, h2⟩
    cases e <;> rfl
  | false =>
    simp only [Bool.false_eq_true, if_false] at h2
    cases e with
    | fini =>
      refine ⟨_, rfl, fun _ => rfl, ?_⟩
      simp [List.count_append, h2]
    | finish_signal =>
      cases fc with
      | true =>
        refine ⟨_, rfl, fun _ => rfl, ?_⟩
        simp [List.count_append, h2]
      | false =>
        refine ⟨⟨false, ic, false, log⟩, rfl, fun h => by simp at h, ?_⟩
        simp [h2]

theorem SwayfirePlugin.steps_invariant :
    ∀ (events : List PluginEvent) (p : SwayfirePlugin),
      (p.has_finished = true → p.fini_connected = false) →
      (p.log.count PluginAction.swf_fini = if p.has_finished = true then 1 else 0) →
      ∃ q, p.steps events = some q ∧ (q.has_finished = true → q.fini_connected = false) ∧
        q.log.count PluginAction.swf_fini = if q.has_finished = true then 1 else 0 := by
  intro events
  induction events with
  | nil => intro p h1 h2; exact ⟨p, rfl, h1, h2⟩
  | cons e rest ih =>
    intro p h1 h2
    obtain ⟨q, hq, k1, k2⟩ := SwayfirePlugin.step_invariant p e h1 h2
    obtain ⟨r, hr, m1, m2⟩ := ih q k1 k2
    refine ⟨r, ?_, m1, m2⟩
    simp only [SwayfirePlugin.steps, hq, Option.some_bind, hr]

/-- C14: for a plugin, after `init ()` or before it, and every sequence of `fini ()` calls and `SwayfireFinish`
deliveries from the output, `assert (!has_finished)` never fails and `swf_fini ()` runs at most
once; once `has_finished` is true, `fini ()` does nothing; and the finish handler disconnects
itself from the output before it calls `swf_fini ()`. -/
theorem SwayfirePlugin.finalised_at_most_once (core_present : Bool)
    (events : List PluginEvent) (p : SwayfirePlugin) :
    (∃ q, (SwayfirePlugin.init core_present {}).steps events = some q ∧
      q.log.count PluginAction.swf_fini ≤ 1 ∧
      q.log.count PluginAction.swf_fini = (if q.has_finished = true then 1 else 0)) ∧
    (∃ q, SwayfirePlugin.steps {} events = some q ∧
      q.log.count PluginAction.swf_fini ≤ 1 ∧
      q.log.count PluginAction.swf_fini = (if q.has_finished = true then 1 else 0)) ∧
    (if p.has_finished = true then p.fini = some p
      else p.on_swayfire_fini =
        some
          { has_finished := true,
            init_connected := false,
            fini_connected := false,
            log := p.log ++
              [PluginAction.disconnect_init, PluginAction.disconnect_fini,
                PluginAction.swf_fini] }) := by
  refine ⟨?_, ?_, ?_⟩
  · obtain ⟨q, hq, -, h2⟩ := SwayfirePlugin.steps_invariant events
      (SwayfirePlugin.init core_present {})
      (by cases core_present <;> simp [SwayfirePlugin.init, SwayfirePlugin.on_swayfire_init])
      (by cases core_present <;> simp [SwayfirePlugin.init, SwayfirePlugin.on_swayfire_init])
    refine ⟨q, hq, ?_, h2⟩
    rw [h2]
    split_ifs <;> omega
  · obtain ⟨q, hq, -, h2⟩ := SwayfirePlugin.steps_invariant events {}
      (by simp) (by simp)
    refine ⟨q, hq, ?_, h2⟩
    rw [h2]
    split_ifs <;> omega
  · obtain ⟨fin, ic, fc, log⟩ := p
    cases fin <;> simp [SwayfirePlugin.fini, SwayfirePlugin.on_swayfire_fini]

/-! ## C15: the flagged containers stay on one path -/

theorem DecoTree.flagged_of_run_unmark (P : Node) :
    ∀ (ns : List Notification) (t : DecoTree), (∀ x ∈ ns, x.active = false) →
      (t.run ns).is_child_active P = some true → t.is_child_active P = some true := by
  intro ns
  induction ns with
  | nil => intro t _ h; exact h
  | cons x rest ih =>
    intro t hall h
    have e : t.run (x :: rest) = (t.deliver x).run rest := rfl
    rw [e] at h
    have h1 := ih (t.deliver x) (fun y hy => hall y (List.mem_cons_of_mem _ hy)) h
    have hx := hall x (List.mem_cons_self _ _)
    cases x with
    | on_set_active n v =>
      rwa [DecoTree.is_child_active_deliver_set_active] at h1
    | on_set_child_active n v =>
      simp only [Notification.active] at hx
      subst hx
      rw [DecoTree.is_child_active_deliver_set_child_active] at h1
      by_cases hP : P = n
      · rw [if_pos hP] at h1
        cases hf : t.is_child_active P with
        | none => simp [hf] at h1
        | some b => simp [hf] at h1
      · rwa [if_neg hP] at h1

theorem DecoTree.flagged_of_run_targets (P : Node) (S : List Node) :
    ∀ (ns : List Notification) (t : DecoTree),
      (∀ n v, Notification.on_set_child_active n v ∈ ns → n ∈ S) →
      (t.run ns).is_child_active P = some true → t.is_child_active P = some true ∨ P ∈ S := by
  intro ns
  induction ns with
  | nil => intro t _ h; exact Or.inl h
  | cons x rest ih =>
    intro t hall h
    have e : t.run (x :: rest) = (t.deliver x).run rest := rfl
    rw [e] at h
    rcases ih (t.deliver x) (fun n v hy => hall n v (List.mem_cons_of_mem _ hy)) h with h1 | h1
    · cases x with
      | on_set_active n v =>
        rw [DecoTree.is_child_active_deliver_set_active] at h1
        exact Or.inl h1
      | on_set_child_active n v =>
        rw [DecoTree.is_child_active_deliver_set_child_active] at h1
        by_cases hP : P = n
        · right
          rw [hP]
          exact hall n v (List.mem_cons_self _ _)
        · rw [if_neg hP] at h1
          exact Or.inl h1
    · exact Or.inr h1

theorem notify_parents_active (t : DecoTree) (active : Bool) :
    ∀ n : Node, ∀ x ∈ notify_parents t active n,
      x.active = active ∧ ∀ m v, x = Notification.on_set_child_active m v → m ∈ n.ancestors := by
  intro n
  induction n with
  | nil => intro x hx; simp [notify_parents] at hx
  | cons i p ih =>
    intro x hx
    simp only [notify_parents, List.mem_append] at hx
    rcases hx with hx | hx
    · split_ifs at hx
      · simp only [List.mem_singleton] at hx
        subst hx
        refine ⟨rfl, fun m v hm => ?_⟩
        simp only [Notification.on_set_child_active.injEq] at hm
        simp [Node.ancestors, hm.1]
      · simp at hx
    · obtain ⟨h1, h2⟩ := ih x hx
      exact ⟨h1, fun m v hm => by
        simp only [Node.ancestors, List.mem_cons]
        exact Or.inr (h2 m v hm)⟩

theorem notify_tree_active (t : DecoTree) (n : Node) (active : Bool) :
    ∀ x ∈ notify_tree t n active,
      x.active = active ∧ ∀ m v, x = Notification.on_set_child_active m v → m ∈ n.ancestors := by
  intro x hx
  simp only [notify_tree, List.mem_append] at hx
  rcases hx with hx | hx
  · split_ifs at hx
    · simp only [List.mem_singleton] at hx
      subst hx
      exact ⟨rfl, fun m v hm => by simp at hm⟩
    · simp at hx
    · simp at hx
  · exact notify_parents_active t active n x hx

theorem Node.mem_ancestors_iff (P : Node) : ∀ n : Node, P ∈ n.ancestors ↔ P <:+ n ∧ P ≠ n := by
  intro n
  induction n with
  | nil =>
    simp only [Node.ancestors, List.not_mem_nil, false_iff, not_and, not_not]
    intro h
    exact List.eq_nil_of_suffix_nil h
  | cons i p ih =>
    simp only [Node.ancestors, List.mem_cons, ih, List.suffix_cons_iff]
    constructor
    · rintro (h | ⟨h1, h2⟩)
      · subst h
        exact ⟨Or.inr (List.suffix_refl _), fun hc => by
          have := congrArg List.length hc
          simp at this⟩
      · refine ⟨Or.inr h1, fun hc => ?_⟩
        have hl := h1.length_le
        rw [hc] at hl
        simp at hl
    · rintro ⟨h1 | h1, h2⟩
      · exact absurd h1 h2
      · by_cases hP : P = p
        · exact Or.inl hP
        · exact Or.inr ⟨h1, hP⟩

theorem Node.ancestors_comparable (n P Q : Node) (hP : P ∈ n.ancestors) (hQ : Q ∈ n.ancestors) :
    P = Q ∨ P ∈ Q.ancestors ∨ Q ∈ P.ancestors := by
  rw [Node.mem_ancestors_iff] at hP hQ
  by_cases h : P = Q
  · exact Or.inl h
  · right
    rcases List.suffix_or_suffix_of_suffix hP.1 hQ.1 with h1 | h1
    · exact Or.inl ((Node.mem_ancestors_iff P Q).mpr ⟨h1, h⟩)
    · exact Or.inr ((Node.mem_ancestors_iff Q P).mpr ⟨h1, fun hc => h hc.symm⟩)

theorem unmark_phase_active (t : DecoTree) (old_node new_node : Option Node) :
    ∀ x ∈ unmark_phase t old_node new_node, x.active = false := by
  intro x hx
  cases old_node with
  | none => simp [unmark_phase] at hx
  | some o =>
    simp only [unmark_phase] at hx
    split_ifs at hx
    · exact (notify_tree_active t o false x hx).1
    · simp at hx

theorem mark_phase_active (t : DecoTree) (b : Node) :
    ∀ x ∈ mark_phase t (some b),
      x.active = true ∧ ∀ m v, x = Notification.on_set_child_active m v → m ∈ b.ancestors := by
  intro x hx
  exact notify_tree_active t b true x hx

/-- After the whole unmark phase no container off the path to the new node is flagged. -/
theorem DecoTree.flagged_after_unmark (t : DecoTree) (old_node : Option Node) (b : Node)
    (h : ∀ P, t.is_child_active P = some true → ∃ o, old_node = some o ∧ P ∈ o.ancestors)
    (P : Node)
    (hP : (t.run (unmark_phase t old_node (some b))).is_child_active P = some true) :
    P ∈ b.ancestors := by
  cases old_node with
  | none =>
    simp only [unmark_phase, DecoTree.run, List.foldl_nil] at hP
    obtain ⟨o, ho, -⟩ := h P hP
    simp at ho
  | some a =>
    by_cases hab : a = b
    · subst hab
      simp only [unmark_phase, ne_eq, not_true_eq_false, if_false, DecoTree.run,
        List.foldl_nil] at hP
      obtain ⟨o, ho, hm⟩ := h P hP
      simp only [Option.some.injEq] at ho
      rw [ho]
      exact hm
    · have hne : (some b : Option Node) ≠ some a := fun hc => hab (Option.some.inj hc).symm
      simp only [unmark_phase, hne, ne_eq, not_false_eq_true, if_true,
        DecoTree.is_child_active_notify_tree] at hP
      split_ifs at hP with hc
      · cases hf : t.is_child_active P with
        | none => simp [hf] at hP
        | some v => simp [hf] at hP
      · exfalso
        obtain ⟨o, ho, hm⟩ := h P hP
        simp only [Option.some.injEq] at ho
        apply hc
        refine ⟨ho ▸ hm, ?_⟩
        unfold DecoTree.is_child_active at hP
        cases hd : t.deco P with
        | none => simp [hd] at hP
        | some d => rfl

theorem DecoTree.flagged_on_path (t : DecoTree) (old_node new_node : Option Node)
    (h : ∀ P, t.is_child_active P = some true → ∃ o, old_node = some o ∧ P ∈ o.ancestors)
    (k : Nat) :
    ∃ n : Node, ∀ P,
      (t.run ((on_active_node_changed t old_node new_node).take k)).is_child_active P = some true →
        P ∈ n.ancestors := by
  have hprefix : ∀ P, (t.run ((unmark_phase t old_node new_node).take k)).is_child_active P =
      some true → ∃ o, old_node = some o ∧ P ∈ o.ancestors := by
    intro P hP
    apply h
    exact DecoTree.flagged_of_run_unmark P _ t
      (fun x hx => unmark_phase_active t old_node new_node x (List.mem_of_mem_take hx)) hP
  have hold : ∃ n : Node, ∀ P,
      (t.run ((unmark_phase t old_node new_node).take k)).is_child_active P = some true →
        P ∈ n.ancestors := by
    cases old_node with
    | none =>
      refine ⟨[], fun P hP => ?_⟩
      obtain ⟨o, ho, -⟩ := hprefix P hP
      simp at ho
    | some a =>
      refine ⟨a, fun P hP => ?_⟩
      obtain ⟨o, ho, hm⟩ := hprefix P hP
      simp only [Option.some.injEq] at ho
      rw [ho]
      exact hm
  simp only [on_active_node_changed, List.take_append_eq_append_take, DecoTree.run_append]
  cases new_node with
  | none =>
    simpa [mark_phase, DecoTree.run] using hold
  | some b =>
    by_cases hk : k ≤ (unmark_phase t old_node (some b)).length
    · have e : k - (unmark_phase t old_node (some b)).length = 0 := by omega
      simpa [e, DecoTree.run] using hold
    · have e : (unmark_phase t old_node (some b)).take k = unmark_phase t old_node (some b) :=
        List.take_of_length_le (by omega)
      rw [e]
      refine ⟨b, fun P hP => ?_⟩
      rcases DecoTree.flagged_of_run_targets P b.ancestors _ _
        (fun n v hn => (mark_phase_active t b _ (List.mem_of_mem_take hn)).2 n v rfl) hP with h1 | h1
      · exact DecoTree.flagged_after_unmark t old_node b h P h1
      · exact h1

/-- C15: for every tree in which the containers flagged `is_child_active` are exactly the
containers above `old_node` (none when `old_node` is null), after each single notification of
`on_active_node_changed` the flagged containers lie on one root-to-node path, so any two of
them are ordered by ancestry; and every `false` notification, for the chain of the old node,
is delivered before any `true` notification, for the chain of the new node. -/
theorem on_active_node_changed_single_path (t : DecoTree) (old_node new_node : Option Node)
    (h : ∀ P, t.is_child_active P = some true ↔ ∃ o, old_node = some o ∧ P ∈ o.ancestors)
    (k : Nat) :
    (∃ n : Node, ∀ P,
      (t.run ((on_active_node_changed t old_node new_node).take k)).is_child_active P =
        some true → P ∈ n.ancestors) ∧
    (∀ P Q,
      (t.run ((on_active_node_changed t old_node new_node).take k)).is_child_active P =
        some true →
      (t.run ((on_active_node_changed t old_node new_node).take k)).is_child_active Q =
        some true →
      P = Q ∨ P ∈ Q.ancestors ∨ Q ∈ P.ancestors) ∧
    (on_active_node_changed t old_node new_node =
        unmark_phase t old_node new_node ++ mark_phase t new_node ∧
      (∀ x ∈ unmark_phase t old_node new_node, x.active = false) ∧
      (∀ x ∈ mark_phase t new_node, x.active = true)) := by
  obtain ⟨n, hn⟩ := DecoTree.flagged_on_path t old_node new_node (fun P hP => (h P).mp hP) k
  refine ⟨⟨n, hn⟩, fun P Q hP hQ => Node.ancestors_comparable n P Q (hn P hP) (hn Q hQ),
    rfl, unmark_phase_active t old_node new_node, ?_⟩
  intro x hx
  cases new_node with
  | none => simp [mark_phase] at hx
  | some b => exact (mark_phase_active t b x hx).1

theorem DecoTree.sample_flagged (P : Node) :
    DecoTree.sample.is_child_active P = some true ↔
      ∃ o, (some [0, 0] : Option Node) = some o ∧ P ∈ o.ancestors := by
  constructor
  · intro hP
    refine ⟨[0, 0], rfl, ?_⟩
    by_cases hc : P = [] ∨ P = [0]
    · rcases hc with rfl | rfl <;> decide
    · simp [DecoTree.is_child_active, DecoTree.sample, hc] at hP
  · rintro ⟨o, ho, hm⟩
    simp only [Option.some.injEq] at ho
    subst ho
    simp only [Node.ancestors, List.mem_cons, List.not_mem_nil, or_false] at hm
    rcases hm with rfl | rfl <;> decide

/-- Witness of C15: in the sample tree, where the containers above the active view `[0, 0]`
are the flagged ones, two containers still flagged after the first notification of the move
to `[1]` are ordered by ancestry. -/
theorem on_active_node_changed_single_path_witness :
    (∀ P, DecoTree.sample.is_child_active P = some true ↔
      ∃ o, (some [0, 0] : Option Node) = some o ∧ P ∈ o.ancestors) ∧
    (DecoTree.sample.run
      ((on_active_node_changed DecoTree.sample (some [0, 0]) (some [1])).take 1)).is_child_active
        [] = some true ∧
    (DecoTree.sample.run
      ((on_active_node_changed DecoTree.sample (some [0, 0]) (some [1])).take 1)).is_child_active
        [0] = some false ∧
    (∃ n : Node, ∀ P,
      (DecoTree.sample.run
        ((on_active_node_changed DecoTree.sample (some [0, 0]) (some [1])).take
          1)).is_child_active P = some true → P ∈ n.ancestors) :=
  ⟨DecoTree.sample_flagged, by decide, by decide,
    (on_active_node_changed_single_path DecoTree.sample (some [0, 0]) (some [1])
      DecoTree.sample_flagged 1).1⟩

/-! ## C16, C17: geometry of the tab bar -/

theorem TabBarGeometry.on_geometry_changed_of_skipped
    (calculate_region : wf.geometry_t → wf.region_t) (inner_geo : wf.geometry_t)
    (data : GeometryChangedSignalData) (d : TabBarGeometry) (h : d.skipped data) :
    d.on_geometry_changed calculate_region inner_geo data = d := by
  obtain ⟨h1, h2, h3⟩ := h
  simp [TabBarGeometry.on_geometry_changed, h1, h2, h3]

theorem TabBarGeometry.on_geometry_changed_of_not_skipped
    (calculate_region : wf.geometry_t → wf.region_t) (inner_geo : wf.geometry_t)
    (data : GeometryChangedSignalData) (d : TabBarGeometry) (h : ¬ d.skipped data) :
    d.on_geometry_changed calculate_region inner_geo data =
      { geometry :=
          ⟨inner_geo.x, inner_geo.y - d.geometry.height, inner_geo.width, d.geometry.height⟩,
        cached_region := calculate_region
          ⟨inner_geo.x, inner_geo.y - d.geometry.height, inner_geo.width, d.geometry.height⟩,
        cache_textures_calls :=
          d.cache_textures_calls + (if d.geometry.width ≠ inner_geo.width then 1 else 0),
        damage_calls := d.damage_calls + 2 } := by
  have hc : ¬ (data.old_geo = data.new_geo ∧
      (decide (d.geometry.width = 0) || decide (d.geometry.height = 0)) = false) := by
    intro hc
    apply h
    obtain ⟨h1, h2⟩ := hc
    simp only [Bool.or_eq_false_iff, decide_eq_false_iff_not] at h2
    exact ⟨h1, h2.1, h2.2⟩
  simp only [TabBarGeometry.on_geometry_changed, hc, if_false]
  by_cases hw : d.geometry.width = inner_geo.width
  · simp [hw, TabBarGeometry.damage]
  · simp [hw, TabBarGeometry.damage, TabBarGeometry.cache_textures]

/-- C16: for every geometry-changed event that is not skipped, with `inner` the inner geometry
of the node and `H` the height of the bar before the event, the handler sets the geometry of
the decoration to `(inner.x, inner.y - H, inner.width, H)`: the bar keeps its height, spans the
inner width, and its bottom edge `y + height` is the top of the inner content. -/
theorem TabBarGeometry.bar_placement (calculate_region : wf.geometry_t → wf.region_t)
    (inner_geo : wf.geometry_t) (data : GeometryChangedSignalData) (d : TabBarGeometry)
    (h : ¬ d.skipped data) :
    (d.on_geometry_changed calculate_region inner_geo data).geometry =
        ⟨inner_geo.x, inner_geo.y - d.geometry.height, inner_geo.width, d.geometry.height⟩ ∧
      (d.on_geometry_changed calculate_region inner_geo data).geometry.height =
        d.geometry.height ∧
      (d.on_geometry_changed calculate_region inner_geo data).geometry.width =
        inner_geo.width ∧
      (d.on_geometry_changed calculate_region inner_geo data).geometry.y +
        (d.on_geometry_changed calculate_region inner_geo data).geometry.height = inner_geo.y := by
  rw [TabBarGeometry.on_geometry_changed_of_not_skipped calculate_region inner_geo data d h]
  refine ⟨rfl, rfl, rfl, ?_⟩
  simp

/-- Witness of C16: a bar `100 x 20`, on a node whose geometry changed and whose inner
geometry is `(5, 30, 200, 170)`, is placed at `(5, 10, 200, 20)`. -/
theorem TabBarGeometry.bar_placement_witness :
    (TabBarGeometry.on_geometry_changed (fun g => [g]) ⟨5, 30, 200, 170⟩
      ⟨⟨0, 0, 100, 100⟩, ⟨0, 0, 200, 200⟩⟩
      { geometry := ⟨0, 0, 100, 20⟩ }).geometry = ⟨5, 10, 200, 20⟩ :=
  (TabBarGeometry.bar_placement (fun g => [g]) ⟨5, 30, 200, 170⟩
    ⟨⟨0, 0, 100, 100⟩, ⟨0, 0, 200, 200⟩⟩ { geometry := ⟨0, 0, 100, 20⟩ }
    (fun hs => absurd hs.1 (by decide))).1

/-- C17: `cache_textures ()` is called by `on_geometry_changed` exactly when the handler is not
skipped and the width of the bar differs from the new inner width, and then once; and when
`old_geo` equals `new_geo` while the geometry of the bar has non-zero width and height, the
handler returns without changing geometry, cached region or textures. -/
theorem TabBarGeometry.cache_textures_iff_width_changed
    (calculate_region : wf.geometry_t → wf.region_t) (inner_geo : wf.geometry_t)
    (data : GeometryChangedSignalData) (d : TabBarGeometry) :
    ((d.on_geometry_changed calculate_region inner_geo data).cache_textures_calls =
        d.cache_textures_calls + 1 ↔
      ¬ d.skipped data ∧ d.geometry.width ≠ inner_geo.width) ∧
    ((d.on_geometry_changed calculate_region inner_geo data).cache_textures_calls =
        d.cache_textures_calls ↔
      ¬ (¬ d.skipped data ∧ d.geometry.width ≠ inner_geo.width)) ∧
    (data.old_geo = data.new_geo → d.geometry.width ≠ 0 → d.geometry.height ≠ 0 →
      d.on_geometry_changed calculate_region inner_geo data = d) := by
  refine ⟨?_, ?_, fun h1 h2 h3 =>
    TabBarGeometry.on_geometry_changed_of_skipped calculate_region inner_geo data d ⟨h1, h2, h3⟩⟩
  · by_cases hs : d.skipped data
    · rw [TabBarGeometry.on_geometry_changed_of_skipped calculate_region inner_geo data d hs]
      simp [hs]
    · rw [TabBarGeometry.on_geometry_changed_of_not_skipped calculate_region inner_geo data d hs]
      by_cases hw : d.geometry.width = inner_geo.width <;> simp [hs, hw]
  · by_cases hs : d.skipped data
    · rw [TabBarGeometry.on_geometry_changed_of_skipped calculate_region inner_geo data d hs]
      simp [hs]
    · rw [TabBarGeometry.on_geometry_changed_of_not_skipped calculate_region inner_geo data d hs]
      by_cases hw : d.geometry.width = inner_geo.width <;> simp [hs, hw]

/-- Witness of C17: a bar `100 x 20` on a node whose geometry did not change is left as it
is, whatever the inner geometry. -/
theorem TabBarGeometry.cache_textures_iff_width_changed_witness :
    TabBarGeometry.on_geometry_changed (fun g => [g]) ⟨5, 30, 200, 170⟩
      ⟨⟨0, 0, 100, 100⟩, ⟨0, 0, 100, 100⟩⟩ { geometry := ⟨0, 0, 100, 20⟩ } =
      { geometry := ⟨0, 0, 100, 20⟩ } :=
  (TabBarGeometry.cache_textures_iff_width_changed (fun g => [g]) ⟨5, 30, 200, 170⟩
    ⟨⟨0, 0, 100, 100⟩, ⟨0, 0, 100, 100⟩⟩ { geometry := ⟨0, 0, 100, 20⟩ }).2.2
    (by decide) (by decide) (by decide)

/-! ## C18: hit test and region of a border -/

theorem eq_zero_of_sq_add_sq_le {a b r : Int} (h : a ^ 2 + b ^ 2 ≤ r ^ 2) (hb : b = r) :
    a = 0 := by
  subst hb
  have h1 : a ^ 2 ≤ 0 := by linarith
  have h2 : a ^ 2 = 0 := le_antisymm h1 (sq_nonneg a)
  exact pow_eq_zero_iff (two_ne_zero) |>.mp h2

/-- C18, as stated, fails: on the 10 x 10 frame with border width 1 and radius 2 the point
`(8, 10)`, at distance 2 straight below the centre `(8, 8)` of the bottom-right sector, is
accepted by `BorderSubSurf::contains_point`, yet it lies in no rectangle of
`BorderSubSurf::calculate_region` and below the frame. -/
theorem BorderSubSurf.hit_outside_region_counterexample :
    (0 ≤ BorderSubSurf.frame10.border_width ∧
      BorderSubSurf.frame10.border_width ≤ BorderSubSurf.frame10.border_radius ∧
      2 * BorderSubSurf.frame10.border_radius ≤ BorderSubSurf.frame10.geo.width ∧
      2 * BorderSubSurf.frame10.border_radius ≤ BorderSubSurf.frame10.geo.height) ∧
    BorderSubSurf.contains_point BorderSubSurf.frame10 ⟨8, 10⟩ = true ∧
    wf.region_t.contains_point (BorderSubSurf.calculate_region BorderSubSurf.frame10) ⟨8, 10⟩
      = false ∧
    ¬ ((10 : Int) < BorderSubSurf.frame10.geo.height) := by
  have hbr : CurveSubSurf.contains_point
      (BorderSubSurf.subspecs BorderSubSurf.frame10).bottom_right ⟨8, 10⟩ = true :=
    (BorderSubSurf.bottom_right_contains_iff BorderSubSurf.frame10 ⟨8, 10⟩).mpr (by decide)
  refine ⟨by decide, ?_, by decide, by decide⟩
  simp [BorderSubSurf.contains_point, hbr]

/-- The region of a border, point by point: the four edge rectangles and the four squares
around the sectors. -/
theorem BorderSubSurf.region_contains_point_iff (spec : BorderSubSurf.Spec) (pt : wf.point_t) :
    wf.region_t.contains_point (BorderSubSurf.calculate_region spec) pt = true ↔
      (0 ≤ pt.x ∧ pt.x < 0 + spec.border_width ∧ spec.border_radius ≤ pt.y ∧
        pt.y < spec.border_radius + (spec.geo.height - 2 * spec.border_radius)) ∨
      (spec.geo.width - spec.border_width ≤ pt.x ∧
        pt.x < spec.geo.width - spec.border_width + spec.border_width ∧
        spec.border_radius ≤ pt.y ∧
        pt.y < spec.border_radius + (spec.geo.height - 2 * spec.border_radius)) ∨
      (spec.border_radius ≤ pt.x ∧
        pt.x < spec.border_radius + (spec.geo.width - 2 * spec.border_radius) ∧
        0 ≤ pt.y ∧ pt.y < 0 + spec.border_width) ∨
      (spec.border_radius ≤ pt.x ∧
        pt.x < spec.border_radius + (spec.geo.width - 2 * spec.border_radius) ∧
        spec.geo.height - spec.border_width ≤ pt.y ∧
        pt.y < spec.geo.height - spec.border_width + spec.border_width) ∨
      (spec.border_radius - spec.border_radius ≤ pt.x ∧
        pt.x < spec.border_radius - spec.border_radius + 2 * spec.border_radius ∧
        spec.border_radius - spec.border_radius ≤ pt.y ∧
        pt.y < spec.border_radius - spec.border_radius + 2 * spec.border_radius) ∨
      (spec.geo.width - spec.border_radius - spec.border_radius ≤ pt.x ∧
        pt.x < spec.geo.width - spec.border_radius - spec.border_radius +
          2 * spec.border_radius ∧
        spec.border_radius - spec.border_radius ≤ pt.y ∧
        pt.y < spec.border_radius - spec.border_radius + 2 * spec.border_radius) ∨
      (spec.border_radius - spec.border_radius ≤ pt.x ∧
        pt.x < spec.border_radius - spec.border_radius + 2 * spec.border_radius ∧
        spec.geo.height - spec.border_radius - spec.border_radius ≤ pt.y ∧
        pt.y < spec.geo.height - spec.border_radius - spec.border_radius +
          2 * spec.border_radius) ∨
      (spec.geo.width - spec.border_radius - spec.border_radius ≤ pt.x ∧
        pt.x < spec.geo.width - spec.border_radius - spec.border_radius +
          2 * spec.border_radius ∧
        spec.geo.height - spec.border_radius - spec.border_radius ≤ pt.y ∧
        pt.y < spec.geo.height - spec.border_radius - spec.border_radius +
          2 * spec.border_radius) := by
  simp only [BorderSubSurf.calculate_region, BorderSubSurf.subspecs,
    RectSubSurf.calculate_region, CurveSubSurf.calculate_region, List.cons_append,
    List.nil_append, wf.region_t.contains_point, List.any_cons, List.any_nil, Bool.or_false,
    wf.geometry_t.contains_point, Bool.or_eq_true, Bool.and_eq_true, decide_eq_true_eq,
    and_assoc]

theorem BorderSubSurf.region_inside_frame (spec : BorderSubSurf.Spec) (pt : wf.point_t)
    (hbw : 0 ≤ spec.border_width) (hle : spec.border_width ≤ spec.border_radius)
    (hw : 2 * spec.border_radius ≤ spec.geo.width)
    (hh : 2 * spec.border_radius ≤ spec.geo.height)
    (h : wf.region_t.contains_point (BorderSubSurf.calculate_region spec) pt = true) :
    (0 ≤ pt.x ∧ pt.x < spec.geo.width) ∧ (0 ≤ pt.y ∧ pt.y < spec.geo.height) := by
  rw [BorderSubSurf.region_contains_point_iff] at h
  rcases h with h | h | h | h | h | h | h | h
  all_goals
    obtain ⟨h1, h2, h3, h4⟩ := h
    refine ⟨⟨?_, ?_⟩, ?_, ?_⟩ <;> omega

theorem BorderSubSurf.region_of_edge (spec : BorderSubSurf.Spec) (pt : wf.point_t)
    (h : RectSubSurf.contains_point (BorderSubSurf.subspecs spec).left pt = true ∨
      RectSubSurf.contains_point (BorderSubSurf.subspecs spec).right pt = true ∨
      RectSubSurf.contains_point (BorderSubSurf.subspecs spec).top pt = true ∨
      RectSubSurf.contains_point (BorderSubSurf.subspecs spec).bottom pt = true) :
    wf.region_t.contains_point (BorderSubSurf.calculate_region spec) pt = true := by
  rw [BorderSubSurf.region_contains_point_iff]
  simp only [RectSubSurf.rect_contains_point_iff, BorderSubSurf.subspecs] at h
  rcases h with h | h | h | h
  · exact Or.inl h
  · exact Or.inr (Or.inl h)
  · exact Or.inr (Or.inr (Or.inl h))
  · exact Or.inr (Or.inr (Or.inr (Or.inl h)))

theorem BorderSubSurf.region_of_top_left (spec : BorderSubSurf.Spec) (pt : wf.point_t)
    (hr : 0 < spec.border_radius)
    (h : CurveSubSurf.contains_point (BorderSubSurf.subspecs spec).top_left pt = true) :
    wf.region_t.contains_point (BorderSubSurf.calculate_region spec) pt = true := by
  rw [BorderSubSurf.region_contains_point_iff]
  obtain ⟨⟨h0, hd⟩, -, hy, hx⟩ := (BorderSubSurf.top_left_contains_iff spec pt).mp h
  obtain ⟨⟨hx1, hx2⟩, hy1, hy2⟩ := abs_bounds_of_sq_add_sq_le h0 hd
  refine Or.inr (Or.inr (Or.inr (Or.inr (Or.inl ⟨?_, ?_, ?_, ?_⟩)))) <;> omega

theorem BorderSubSurf.region_of_top_right (spec : BorderSubSurf.Spec) (pt : wf.point_t)
    (h : CurveSubSurf.contains_point (BorderSubSurf.subspecs spec).top_right pt = true) :
    wf.region_t.contains_point (BorderSubSurf.calculate_region spec) pt = true := by
  rw [BorderSubSurf.region_contains_point_iff]
  obtain ⟨⟨h0, hd⟩, -, hy, hx⟩ := (BorderSubSurf.top_right_contains_iff spec pt).mp h
  obtain ⟨⟨hx1, hx2⟩, hy1, hy2⟩ := abs_bounds_of_sq_add_sq_le h0 hd
  have hext : pt.x - (spec.geo.width - spec.border_radius) = spec.border_radius →
      pt.y - spec.border_radius = 0 := fun he =>
    eq_zero_of_sq_add_sq_le (by linarith) he
  refine Or.inr (Or.inr (Or.inr (Or.inr (Or.inr (Or.inl ⟨?_, ?_, ?_, ?_⟩))))) <;> omega

theorem BorderSubSurf.region_of_bottom_left (spec : BorderSubSurf.Spec) (pt : wf.point_t)
    (hne : ¬ (pt.x = spec.border_radius ∧ pt.y = spec.geo.height))
    (h : CurveSubSurf.contains_point (BorderSubSurf.subspecs spec).bottom_left pt = true) :
    wf.region_t.contains_point (BorderSubSurf.calculate_region spec) pt = true := by
  rw [BorderSubSurf.region_contains_point_iff]
  obtain ⟨⟨h0, hd⟩, -, hy, hx⟩ := (BorderSubSurf.bottom_left_contains_iff spec pt).mp h
  obtain ⟨⟨hx1, hx2⟩, hy1, hy2⟩ := abs_bounds_of_sq_add_sq_le h0 hd
  have hext : pt.y - (spec.geo.height - spec.border_radius) = spec.border_radius →
      pt.x - spec.border_radius = 0 := fun he =>
    eq_zero_of_sq_add_sq_le hd he
  refine Or.inr (Or.inr (Or.inr (Or.inr (Or.inr (Or.inr (Or.inl ⟨?_, ?_, ?_, ?_⟩)))))) <;>
    omega

theorem BorderSubSurf.region_of_bottom_right (spec : BorderSubSurf.Spec) (pt : wf.point_t)
    (hne1 : ¬ (pt.x = spec.geo.width - spec.border_radius ∧ pt.y = spec.geo.height))
    (hne2 : ¬ (pt.x = spec.geo.width ∧ pt.y = spec.geo.height - spec.border_radius))
    (h : CurveSubSurf.contains_point (BorderSubSurf.subspecs spec).bottom_right pt = true) :
    wf.region_t.contains_point (BorderSubSurf.calculate_region spec) pt = true := by
  rw [BorderSubSurf.region_contains_point_iff]
  obtain ⟨⟨h0, hd⟩, -, hy, hx, hne⟩ := (BorderSubSurf.bottom_right_contains_iff spec pt).mp h
  obtain ⟨⟨hx1, hx2⟩, hy1, hy2⟩ := abs_bounds_of_sq_add_sq_le h0 hd
  have hext1 : pt.y - (spec.geo.height - spec.border_radius) = spec.border_radius →
      pt.x - (spec.geo.width - spec.border_radius) = 0 := fun he =>
    eq_zero_of_sq_add_sq_le hd he
  have hext2 : pt.x - (spec.geo.width - spec.border_radius) = spec.border_radius →
      pt.y - (spec.geo.height - spec.border_radius) = 0 := fun he =>
    eq_zero_of_sq_add_sq_le (by linarith) he
  refine Or.inr (Or.inr (Or.inr (Or.inr (Or.inr (Or.inr (Or.inr ⟨?_, ?_, ?_, ?_⟩)))))) <;>
    omega

theorem BorderSubSurf.hit_in_closed_frame (spec : BorderSubSurf.Spec) (pt : wf.point_t)
    (hbw : 0 ≤ spec.border_width) (hle : spec.border_width ≤ spec.border_radius)
    (hw : 2 * spec.border_radius ≤ spec.geo.width)
    (hh : 2 * spec.border_radius ≤ spec.geo.height)
    (hc : BorderSubSurf.contains_point spec pt = true) :
    (0 ≤ pt.x ∧ pt.x ≤ spec.geo.width) ∧ (0 ≤ pt.y ∧ pt.y ≤ spec.geo.height) := by
  simp only [BorderSubSurf.contains_point, Bool.or_eq_true] at hc
  have hedge : ∀ h : wf.region_t.contains_point (BorderSubSurf.calculate_region spec) pt = true,
      (0 ≤ pt.x ∧ pt.x ≤ spec.geo.width) ∧ (0 ≤ pt.y ∧ pt.y ≤ spec.geo.height) := by
    intro h
    obtain ⟨⟨h1, h2⟩, h3, h4⟩ := BorderSubSurf.region_inside_frame spec pt hbw hle hw hh h
    exact ⟨⟨h1, le_of_lt h2⟩, h3, le_of_lt h4⟩
  rcases hc with ((((((hc | hc) | hc) | hc) | hc) | hc) | hc) | hc
  · exact hedge (BorderSubSurf.region_of_edge spec pt (Or.inl hc))
  · exact hedge (BorderSubSurf.region_of_edge spec pt (Or.inr (Or.inl hc)))
  · exact hedge (BorderSubSurf.region_of_edge spec pt (Or.inr (Or.inr (Or.inl hc))))
  · exact hedge (BorderSubSurf.region_of_edge spec pt (Or.inr (Or.inr (Or.inr hc))))
  · obtain ⟨⟨h0, hd⟩, -, hy, hx⟩ := (BorderSubSurf.top_left_contains_iff spec pt).mp hc
    obtain ⟨⟨hx1, hx2⟩, hy1, hy2⟩ := abs_bounds_of_sq_add_sq_le h0 hd
    refine ⟨⟨?_, ?_⟩, ?_, ?_⟩ <;> omega
  · obtain ⟨⟨h0, hd⟩, -, hy, hx⟩ := (BorderSubSurf.top_right_contains_iff spec pt).mp hc
    obtain ⟨⟨hx1, hx2⟩, hy1, hy2⟩ := abs_bounds_of_sq_add_sq_le h0 hd
    refine ⟨⟨?_, ?_⟩, ?_, ?_⟩ <;> omega
  · obtain ⟨⟨h0, hd⟩, -, hy, hx⟩ := (BorderSubSurf.bottom_left_contains_iff spec pt).mp hc
    obtain ⟨⟨hx1, hx2⟩, hy1, hy2⟩ := abs_bounds_of_sq_add_sq_le h0 hd
    refine ⟨⟨?_, ?_⟩, ?_, ?_⟩ <;> omega
  · obtain ⟨⟨h0, hd⟩, -, hy, hx, -⟩ := (BorderSubSurf.bottom_right_contains_iff spec pt).mp hc
    obtain ⟨⟨hx1, hx2⟩, hy1, hy2⟩ := abs_bounds_of_sq_add_sq_le h0 hd
    refine ⟨⟨?_, ?_⟩, ?_, ?_⟩ <;> omega

/-- C18, amended: for every border spec with `0 ≤ bw ≤ r`, `w ≥ 2r`, `h ≥ 2r` and every point
accepted by `BorderSubSurf::contains_point`, the point lies in the closed frame
`[0, w] x [0, h]`, and it lies inside `BorderSubSurf::calculate_region`, hence inside
`[0, w) x [0, h)`, unless it is one of the extreme points `(r, h)`, `(w - r, h)`, `(w, h - r)`
of the bottom-left and bottom-right arcs or, for `r = 0`, the point `(0, 0)`. -/
theorem BorderSubSurf.hit_in_region_or_extreme (spec : BorderSubSurf.Spec) (pt : wf.point_t)
    (hbw : 0 ≤ spec.border_width) (hle : spec.border_width ≤ spec.border_radius)
    (hw : 2 * spec.border_radius ≤ spec.geo.width)
    (hh : 2 * spec.border_radius ≤ spec.geo.height)
    (hc : BorderSubSurf.contains_point spec pt = true) :
    ((0 ≤ pt.x ∧ pt.x ≤ spec.geo.width) ∧ (0 ≤ pt.y ∧ pt.y ≤ spec.geo.height)) ∧
    (wf.region_t.contains_point (BorderSubSurf.calculate_region spec) pt = true ∨
      (pt.x = spec.border_radius ∧ pt.y = spec.geo.height) ∨
      (pt.x = spec.geo.width - spec.border_radius ∧ pt.y = spec.geo.height) ∨
      (pt.x = spec.geo.width ∧ pt.y = spec.geo.height - spec.border_radius) ∨
      (spec.border_radius = 0 ∧ pt.x = 0 ∧ pt.y = 0)) ∧
    (wf.region_t.contains_point (BorderSubSurf.calculate_region spec) pt = true →
      (0 ≤ pt.x ∧ pt.x < spec.geo.width) ∧ (0 ≤ pt.y ∧ pt.y < spec.geo.height)) := by
  refine ⟨BorderSubSurf.hit_in_closed_frame spec pt hbw hle hw hh hc, ?_,
    BorderSubSurf.region_inside_frame spec pt hbw hle hw hh⟩
  simp only [BorderSubSurf.contains_point, Bool.or_eq_true] at hc
  rcases hc with ((((((hc | hc) | hc) | hc) | hc) | hc) | hc) | hc
  · exact Or.inl (BorderSubSurf.region_of_edge spec pt (Or.inl hc))
  · exact Or.inl (BorderSubSurf.region_of_edge spec pt (Or.inr (Or.inl hc)))
  · exact Or.inl (BorderSubSurf.region_of_edge spec pt (Or.inr (Or.inr (Or.inl hc))))
  · exact Or.inl (BorderSubSurf.region_of_edge spec pt (Or.inr (Or.inr (Or.inr hc))))
  · by_cases hr : 0 < spec.border_radius
    · exact Or.inl (BorderSubSurf.region_of_top_left spec pt hr hc)
    · obtain ⟨⟨h0, hd⟩, -, hy, hx⟩ := (BorderSubSurf.top_left_contains_iff spec pt).mp hc
      obtain ⟨⟨hx1, hx2⟩, hy1, hy2⟩ := abs_bounds_of_sq_add_sq_le h0 hd
      refine Or.inr (Or.inr (Or.inr (Or.inr ⟨?_, ?_, ?_⟩))) <;> omega
  · exact Or.inl (BorderSubSurf.region_of_top_right spec pt hc)
  · by_cases hne : pt.x = spec.border_radius ∧ pt.y = spec.geo.height
    · exact Or.inr (Or.inl hne)
    · exact Or.inl (BorderSubSurf.region_of_bottom_left spec pt hne hc)
  · by_cases hne1 : pt.x = spec.geo.width - spec.border_radius ∧ pt.y = spec.geo.height
    · exact Or.inr (Or.inr (Or.inl hne1))
    · by_cases hne2 : pt.x = spec.geo.width ∧ pt.y = spec.geo.height - spec.border_radius
      · exact Or.inr (Or.inr (Or.inr (Or.inl hne2)))
      · exact Or.inl (BorderSubSurf.region_of_bottom_right spec pt hne1 hne2 hc)

/-- Witness of C18, amended: on the 10 x 10 frame the accepted point `(8, 10)` lies in the
closed frame and is the extreme point `(w - r, h)`. -/
theorem BorderSubSurf.hit_in_region_or_extreme_witness :
    BorderSubSurf.contains_point BorderSubSurf.frame10 ⟨8, 10⟩ = true ∧
    (((0 : Int) ≤ 8 ∧ (8 : Int) ≤ BorderSubSurf.frame10.geo.width) ∧
      ((0 : Int) ≤ 10 ∧ (10 : Int) ≤ BorderSubSurf.frame10.geo.height)) :=
  have hc : BorderSubSurf.contains_point BorderSubSurf.frame10 ⟨8, 10⟩ = true := by
    have hbr : CurveSubSurf.contains_point
        (BorderSubSurf.subspecs BorderSubSurf.frame10).bottom_right ⟨8, 10⟩ = true :=
      (BorderSubSurf.bottom_right_contains_iff BorderSubSurf.frame10 ⟨8, 10⟩).mpr (by decide)
    simp [BorderSubSurf.contains_point, hbr]
  ⟨hc,
    (BorderSubSurf.hit_in_region_or_extreme BorderSubSurf.frame10 ⟨8, 10⟩ (by decide)
      (by decide) (by decide) (by decide) hc).1⟩
